import Mathlib

/-
  Shallow embedding of the Tornbot order reconciliation & lifecycle engine
  (src/main.py).  Event text is modelled as `List Char`; timestamps as `Int`
  epoch seconds; Python dicts preserving insertion order as association lists;
  exceptions as `Except`.  Dict keys absent in a given Python order dict are
  modelled by the value the code's `.get(key, default)` reads would produce.
-/

abbrev Chars := List Char

/-- Lowercasing, mirroring Python `str.lower()` on ASCII text. -/
def lowerStr (s : Chars) : Chars := s.map Char.toLower

/-- Python `\s` class (ASCII): space, tab, newline, carriage return,
vertical tab, form feed. -/
def isWs (c : Char) : Bool :=
  c == ' ' || c == '\t' || c == '\n' || c == '\r' || c.toNat == 11 || c.toNat == 12

/-- Boolean prefix test. -/
def prefixB : Chars → Chars → Bool
  | [], _ => true
  | _ :: _, [] => false
  | p :: ps, c :: cs => p == c && prefixB ps cs

/-- Boolean substring test, mirroring Python `pat in text`. -/
def containsSub (pat : Chars) : Chars → Bool
  | [] => prefixB pat []
  | c :: rest => prefixB pat (c :: rest) || containsSub pat rest

/-- Numeric value of a digit string, as Python `int` on a run of digits. -/
def natOfDigits (ds : Chars) : Nat :=
  ds.foldl (fun n c => n * 10 + (c.toNat - 48)) 0

/-- Helper for `allNumbers`: accumulates the current digit run (reversed). -/
def numsAux : Chars → Chars → List Nat
  | [], acc => if acc.isEmpty then [] else [natOfDigits acc.reverse]
  | c :: rest, acc =>
    if c.isDigit then numsAux rest (c :: acc)
    else if acc.isEmpty then numsAux rest []
    else natOfDigits acc.reverse :: numsAux rest []

/-- All maximal digit runs in the text, mirroring `re.findall(r'\d+', text)`. -/
def allNumbers (t : Chars) : List Nat := numsAux t []

/-- After the digits of a candidate match of `(\d+)x?\s*xanax`: an optional
`x`, then greedy whitespace, then the literal `xanax`. -/
def xanaxTailB (after : Chars) : Bool :=
  let ws := fun (s : Chars) => prefixB xanaxTok (s.dropWhile isWs)
  match after with
  | 'x' :: a2 => ws a2 || ws after
  | _ => ws after
where xanaxTok : Chars := "xanax".toList

/-- First match of the Python regex `(\d+)x?\s*xanax` over (lowered) text,
returning the numeric group, mirroring `re.search`'s leftmost-match rule.
The greedy `\d+` never benefits from giving back characters here (a digit can
start neither `x`, whitespace, nor `xanax`), so the maximal digit run is
taken at each candidate start position. -/
def xanaxAmountSearch : Chars → Option Nat
  | [] => none
  | c :: rest =>
    if c.isDigit then
      let ds := (c :: rest).takeWhile Char.isDigit
      let after := (c :: rest).dropWhile Char.isDigit
      if xanaxTailB after then some (natOfDigits ds) else xanaxAmountSearch rest
    else xanaxAmountSearch rest

/-- Python `str.strip()`: drop leading and trailing whitespace. -/
def stripWs (t : Chars) : Chars :=
  ((t.dropWhile isWs).reverse.dropWhile isWs).reverse

/-- Helper for `splitWsWords`, carrying the current word reversed. -/
def splitWsAux : Chars → Chars → List Chars
  | [], acc => if acc.isEmpty then [] else [acc.reverse]
  | c :: rest, acc =>
    if isWs c then
      if acc.isEmpty then splitWsAux rest [] else acc.reverse :: splitWsAux rest []
    else splitWsAux rest (c :: acc)

/-- Python `str.split()` with no argument: whitespace-separated words. -/
def splitWsWords (t : Chars) : List Chars := splitWsAux t []

/-- Prefix of the text before the first occurrence of `pat` (whole text if
absent), mirroring `text.split(pat)[0]` for nonempty `pat`. -/
def takeUntilSub (pat : Chars) : Chars → Chars
  | [] => []
  | c :: rest => if prefixB pat (c :: rest) then [] else c :: takeUntilSub pat rest

/-- Remainder of the text after the first occurrence of `pat`, if any. -/
def afterFirstSub (pat : Chars) : Chars → Option Chars
  | [] => none
  | c :: rest =>
    if prefixB pat (c :: rest) then some (rest.drop (pat.length - 1))
    else afterFirstSub pat rest

/-- The `([^<]+)</a>` suffix of the sender regex, applied right after a `>`:
a maximal nonempty run of non-`<` characters followed by the literal `</a>`.
(The greedy group cannot profitably give back characters: `</a>` starts with
`<`, which ends the run.) -/
def anchorAfterGt (s : Chars) : Option Chars :=
  let run := s.takeWhile (fun c => c != '<')
  if run.isEmpty then none
  else if prefixB closeATok (s.dropWhile (fun c => c != '<')) then some run
  else none
where closeATok : Chars := "</a>".toList

/-- The `.*?>` part of the sender regex after a fixed `from`: lazily scan
forward (never across a newline, since `.` excludes it) for a `>` whose
`anchorAfterGt` succeeds. -/
def findGtMatch : Chars → Option Chars
  | [] => none
  | c :: rest =>
    if c == '>' then
      match anchorAfterGt rest with
      | some nm => some nm
      | none => findGtMatch rest
    else if c == '\n' then none
    else findGtMatch rest

/-- First match of the Python regex `from.*?>([^<]+)</a>` over the raw event
text, returning the captured group, mirroring `re.search`: candidate starts
are occurrences of `from`, tried left to right. -/
def fromAnchorSearch : Chars → Option Chars
  | [] => none
  | c :: rest =>
    if prefixB fromWord (c :: rest) then
      match findGtMatch (rest.drop 3) with
      | some nm => some nm
      | none => fromAnchorSearch rest
    else fromAnchorSearch rest
where fromWord : Chars := "from".toList

/- ------------------------------------------------------------------ -/
/- Data model                                                          -/
/- ------------------------------------------------------------------ -/

/-- The two coverage kinds: XAN (duration-based) and EXTC (count-based). -/
inductive CoverageKind
  | XAN
  | EXTC
  deriving DecidableEq, Repr

/-- Python order-status strings that the code writes. -/
inductive OrderStatus
  | pending
  | active
  deriving DecidableEq, Repr

/-- Entry of `pricing_config['xan']`: `{'cost': c, 'reward': r}`. -/
structure XanPrice where
  cost : Nat
  reward : Nat
  deriving DecidableEq, Repr

/-- Entry of `pricing_config['extc']`:
`{'cost': c, 'edvds': e, 'xanax': x, 'ecstasy': y}`. -/
structure ExtcPrice where
  cost : Nat
  edvds : Nat
  xanax : Nat
  ecstasy : Nat
  deriving DecidableEq, Repr

/-- Order ids `f"{user_id}_{timestamp}"` with optional `"_auto"` suffix:
modelled as (user id, creation timestamp, auto flag). -/
abbrev OrderId := Nat × Int × Bool

/-- An order dict (`order_data` in the source).  Keys the code leaves absent
are modelled by the defaults its `.get(key, default)` reads produce:
`hours` 24, `jumps` 1, rewards 0, `payment_received_at`/`status`/
`activated_at`/`expires_at`/`torn_sender_name` None, `auto_detected` False. -/
structure OrderData where
  user_id : Nat
  username : Chars
  display_name : Chars
  coverage_type : CoverageKind
  hours : Nat
  jumps : Nat
  xanax_payment : Nat
  xanax_reward : Nat
  edvds_reward : Nat
  ecstasy_reward : Nat
  timestamp : Int
  payment_received_at : Option Int
  status : Option OrderStatus
  auto_detected : Bool
  torn_sender_name : Option Chars
  activated_at : Option Int
  expires_at : Option Int
  deriving DecidableEq, Repr

/-- Baseline order dict holding only the modelled `.get` defaults. -/
def order0 : OrderData where
  user_id := 0
  username := []
  display_name := []
  coverage_type := CoverageKind.XAN
  hours := 24
  jumps := 1
  xanax_payment := 0
  xanax_reward := 0
  edvds_reward := 0
  ecstasy_reward := 0
  timestamp := 0
  payment_received_at := none
  status := none
  auto_detected := false
  torn_sender_name := none
  activated_at := none
  expires_at := none

/-- A guild member as the identity resolver sees it: numeric id,
`str(member)` and `member.display_name`. -/
structure GuildMember where
  id : Nat
  username : Chars
  display_name : Chars
  deriving DecidableEq, Repr

/-- A raw Torn feed entry.  `isDict` is the `isinstance(entry, dict)` test;
`tsOk = false` models a `timestamp` value on which `datetime.fromtimestamp`
raises; `extraStrings` are the remaining string-valued fields scanned by the
other-fields prefilter. -/
structure RawEvent where
  id : Nat
  isDict : Bool
  log : Chars
  eventF : Chars
  category : Chars
  extraStrings : List Chars
  tsOk : Bool
  timestamp : Int
  deriving DecidableEq, Repr

/-- Payload text selection: use the `event` field if the `log` field is
empty (`if event_text and not log_text`). -/
def eventText (e : RawEvent) : Chars :=
  if !e.eventF.isEmpty && e.log.isEmpty then e.eventF else e.log

/-- The global mutable stores of the bot process. -/
structure BotState where
  pending_order : List (OrderId × OrderData)
  active_orders : List (OrderId × OrderData)
  processed_events : List Nat
  pricing_xan : List (Nat × XanPrice)
  pricing_extc : List (Nat × ExtcPrice)
  deriving DecidableEq, Repr

/-- Initial process state: every store empty. -/
def initState : BotState where
  pending_order := []
  active_orders := []
  processed_events := []
  pricing_xan := []
  pricing_extc := []

/-- Python dict assignment `d[k] = v`: replace in place if the key exists,
else append (dicts preserve insertion order). -/
def dictInsert {κ α : Type} [DecidableEq κ] (l : List (κ × α)) (k : κ) (v : α) :
    List (κ × α) :=
  if l.any fun p => decide (p.1 = k) then
    l.map fun p => if p.1 = k then (k, v) else p
  else l ++ [(k, v)]

/-- Python `del d[k]` (no-op when the key is absent, as in the guarded
`if order_id in pending_order: del pending_order[order_id]`). -/
def dictErase {κ α : Type} [DecidableEq κ] (l : List (κ × α)) (k : κ) :
    List (κ × α) :=
  l.filter fun p => decide (p.1 ≠ k)

/-- Dict lookup. -/
def dictLookup {κ α : Type} [DecidableEq κ] (l : List (κ × α)) (k : κ) :
    Option α :=
  (l.find? fun p => decide (p.1 = k)).map fun p => p.2

/-- `any(order_data.get('user_id') == uid for order_data in store.values())`. -/
def hasUser (l : List (OrderId × OrderData)) (uid : Nat) : Bool :=
  l.any fun p => p.2.user_id == uid

/- ------------------------------------------------------------------ -/
/- Text predicate tokens                                               -/
/- ------------------------------------------------------------------ -/

def xanaxTok : Chars := "xanax".toList
def hjsxTok : Chars := "hjsx".toList
def hjseTok : Chars := "hjse".toList
def sentTok : Chars := "sent".toList
def toYouTok : Chars := "to you".toList
def youWereSentTok : Chars := "you were sent".toList
def receivedTok : Chars := "received".toList
def someXanaxTok : Chars := "some xanax".toList
def fromTok : Chars := "from".toList
def fromSpTok : Chars := " from ".toList
def withSpTok : Chars := " with".toList

/-- Transfer-phrase detection over lowered text:
`('sent' and 'to you') or 'you were sent' or 'received'`. -/
def transferPhraseB (lower : Chars) : Bool :=
  (containsSub sentTok lower && containsSub toYouTok lower) ||
    containsSub youWereSentTok lower || containsSub receivedTok lower

/-- Three-tier amount extraction of New-Order Discovery (lines 537-550):
the `(\d+)x?\s*xanax` pattern on lowered text, else the phrase
`some xanax` mapped to 1, else the first bare integer in the raw text,
else 0 (no match). -/
def extract_payment_amount (text : Chars) : Nat :=
  let lower := lowerStr text
  match xanaxAmountSearch lower with
  | some n => n
  | none =>
    if containsSub someXanaxTok lower then 1
    else match (allNumbers text).head? with
      | some n => n
      | none => 0

/- ------------------------------------------------------------------ -/
/- New-Order Discovery (detect_new_orders_from_torn, lines 423-662)    -/
/- ------------------------------------------------------------------ -/

/-- Sender-name extraction (lines 495-511): gated on `from` appearing in the
lowered text; first the markup regex `from.*?>([^<]+)</a>` on the raw text,
else take the first word of the raw-text segment between the first ` from `
and the following ` with`.  `.error` models the `IndexError` of
`name_part.split()[0]` on an all-whitespace segment. -/
def extractSender (text lower : Chars) : Except Unit (Option Chars) :=
  if containsSub fromTok lower = false then Except.ok none
  else
    match fromAnchorSearch text with
    | some nm => Except.ok (some (stripWs nm))
    | none =>
      match afterFirstSub fromSpTok text with
      | none => Except.ok none
      | some seg0 =>
        let seg := takeUntilSub fromSpTok seg0
        let namePart := stripWs (takeUntilSub withSpTok seg)
        match splitWsWords namePart with
        | [] => Except.error ()
        | w :: _ => Except.ok (some w)

/-- Identity resolution for discovery (lines 513-520): first roster member
whose lowered display name contains, or is contained in, the lowered sender
name. -/
def resolveMember (roster : List GuildMember) (sender : Chars) :
    Option GuildMember :=
  roster.find? fun mem =>
    containsSub (lowerStr sender) (lowerStr mem.display_name) ||
      containsSub (lowerStr mem.display_name) (lowerStr sender)

/-- Resolution plus the at-most-one guards of lines 522-535: skip when the
resolved member already has any pending or any active order. -/
def detectEligibleMember (roster : List GuildMember) (st : BotState)
    (sender : Chars) : Option GuildMember :=
  match resolveMember roster sender with
  | none => none
  | some m =>
    if hasUser st.pending_order m.id then none
    else if hasUser st.active_orders m.id then none
    else some m

/-- XAN intent predicate of lines 470-478 over lowered text. -/
def isXanOrderB (lower : Chars) : Bool :=
  containsSub xanaxTok lower && containsSub hjsxTok lower && transferPhraseB lower

/-- EXTC intent predicate of lines 470-479 over lowered text. -/
def isExtcOrderB (lower : Chars) : Bool :=
  containsSub xanaxTok lower && containsSub hjseTok lower && transferPhraseB lower

/-- The discovered EXTC order dict built at lines 598-616. -/
def mkDiscoveredOrder (m : GuildMember) (e : RawEvent) (sender : Chars)
    (amt : Nat) (pr : Nat × ExtcPrice) : OrderData :=
  { order0 with
    user_id := m.id
    username := m.username
    display_name := m.display_name
    coverage_type := CoverageKind.EXTC
    timestamp := e.timestamp
    xanax_payment := amt
    xanax_reward := pr.2.xanax
    payment_received_at := some e.timestamp
    auto_detected := true
    torn_sender_name := some sender
    jumps := pr.1
    edvds_reward := pr.2.edvds
    ecstasy_reward := pr.2.ecstasy }

/-- Processing of one feed entry by New-Order Discovery, following the loop
body of lines 441-657.  `.error` models an uncaught per-event exception
(`datetime.fromtimestamp` on a malformed timestamp, or the sender
`IndexError`).  Note the source-level indentation slip at lines 611-625: the
`pending_order[order_id] = order_data` block sits inside the EXTC `else`
branch, so a fully qualifying XAN event creates no order and is not marked
processed. -/
def detect_step (roster : List GuildMember) (now : Int) (st : BotState)
    (e : RawEvent) : Except Unit (BotState × Nat) :=
  if e.isDict = false then Except.ok (st, 0)
  else if st.processed_events.contains e.id then Except.ok (st, 0)
  else if e.tsOk = false then Except.error ()
  else if e.timestamp < now - 3600 then Except.ok (st, 0)
  else if !(isXanOrderB (lowerStr (eventText e)) ||
      isExtcOrderB (lowerStr (eventText e))) then Except.ok (st, 0)
  else
    match extractSender (eventText e) (lowerStr (eventText e)) with
    | Except.error _ => Except.error ()
    | Except.ok none => Except.ok (st, 0)
    | Except.ok (some sender) =>
      if sender.isEmpty then Except.ok (st, 0)
      else
        match detectEligibleMember roster st sender with
        | none => Except.ok (st, 0)
        | some m =>
          if extract_payment_amount (eventText e) = 0 then Except.ok (st, 0)
          else if isXanOrderB (lowerStr (eventText e)) then
            match st.pricing_xan.find?
                (fun p => p.2.cost == extract_payment_amount (eventText e)) with
            | none => Except.ok (st, 0)
            | some _ =>
              -- XAN branch: `order_data["hours"] = hours` only; the
              -- store/mark/count statements are in the EXTC branch.
              Except.ok (st, 0)
          else
            match st.pricing_extc.find?
                (fun p => p.2.cost == extract_payment_amount (eventText e)) with
            | none => Except.ok (st, 0)
            | some pr =>
              Except.ok
                ({ st with
                    pending_order := dictInsert st.pending_order (m.id, now, true)
                      (mkDiscoveredOrder m e sender
                        (extract_payment_amount (eventText e)) pr)
                    processed_events := e.id :: st.processed_events }, 1)

/-- The discovery loop with the pass-level `try`: a per-event exception stops
the loop (third component `true`) but the accumulated state and count are
kept. -/
def detectLoop (roster : List GuildMember) (now : Int) :
    List RawEvent → BotState → Nat → BotState × Nat × Bool
  | [], st, cnt => (st, cnt, false)
  | e :: rest, st, cnt =>
    match detect_step roster now st e with
    | Except.error _ => (st, cnt, true)
    | Except.ok (st', made) => detectLoop roster now rest st' (cnt + made)

/-- `detect_new_orders_from_torn(guild, key)`: `none` models a failed feed
fetch; the surrounding `try` turns any per-event exception into an early
return of the count accumulated so far. -/
def detect_new_orders_from_torn (roster : List GuildMember) (st : BotState)
    (events : Option (List RawEvent)) (now : Int) : BotState × Nat :=
  match events with
  | none => (st, 0)
  | some evs =>
    if evs.isEmpty then (st, 0)
    else ((detectLoop roster now evs st 0).1, (detectLoop roster now evs st 0).2.1)

/- ------------------------------------------------------------------ -/
/- Matching Engine (perform_order_check, lines 1616-1983)              -/
/- ------------------------------------------------------------------ -/

/-- Tag token of a coverage kind (`'HJSx' if coverage_type == 'XAN' else
'HJSe'`), already lowered as the comparisons are. -/
def messageCode : CoverageKind → Chars
  | CoverageKind.XAN => hjsxTok
  | CoverageKind.EXTC => hjseTok

/-- `display_name.split('[')[0].strip() if '[' in display_name else
display_name` (line 1644). -/
def displayNameClean (dn : Chars) : Chars :=
  if containsSub ['['] dn then stripWs (takeUntilSub ['['] dn) else dn

/-- Relevance prefilter of lines 1683-1698: the text or any other
string-valued field mentions `xanax`, `hjsx`, `hjse`, or the order's code. -/
def prefilterB (o : OrderData) (e : RawEvent) : Bool :=
  let lower := lowerStr (eventText e)
  let code := messageCode o.coverage_type
  let fieldHit := fun (v : Chars) =>
    let lv := lowerStr v
    containsSub xanaxTok lv || containsSub hjsxTok lv ||
      containsSub hjseTok lv || containsSub code lv
  containsSub xanaxTok lower || containsSub hjsxTok lower ||
    containsSub hjseTok lower || containsSub code lower ||
    (e.log :: e.eventF :: e.category :: e.extraStrings).any fieldHit

/-- Amount validation of lines 1711-1728: the regex tier must equal the
expected payment exactly; the `some xanax` tier only fires when the expected
payment is 1; otherwise any bare integer in the raw text equal to the
expected payment is accepted. -/
def paymentAmountFound (o : OrderData) (text lower : Chars) : Bool :=
  match xanaxAmountSearch lower with
  | some n => n == o.xanax_payment
  | none =>
    if containsSub someXanaxTok lower && o.xanax_payment == 1 then true
    else (allNumbers text).any fun n => n == o.xanax_payment

/-- Identity validation of lines 1730-1743: clean display name or username
as substring, or any of their words of length > 2 as substring. -/
def nameMatchFound (o : OrderData) (lower : Chars) : Bool :=
  let dnc := displayNameClean o.display_name
  let displayFound := containsSub (lowerStr dnc) lower
  let usernameFound := containsSub (lowerStr o.username) lower
  let partialDisplay := (splitWsWords (lowerStr dnc)).any fun w =>
    decide (w.length > 2) && containsSub w lower
  let partialUsername := (splitWsWords (lowerStr o.username)).any fun w =>
    decide (w.length > 2) && containsSub w lower
  displayFound || usernameFound || partialDisplay || partialUsername

/-- Full per-event match predicate of lines 1701-1753 for one pending order:
currency mention, tag token, transfer phrase, expected amount, identity, and
the one-hour window `|event - order| <= 3600` around the order's creation. -/
def matchesOrder (o : OrderData) (text : Chars) (ts : Int) : Bool :=
  let lower := lowerStr text
  containsSub xanaxTok lower &&
    containsSub (messageCode o.coverage_type) lower &&
    transferPhraseB lower &&
    paymentAmountFound o text lower &&
    nameMatchFound o lower &&
    decide ((ts - o.timestamp).natAbs ≤ 3600)

/-- Event scan for one pending order (lines 1658-1774): skip non-dict
entries, throw on a malformed timestamp, skip entries older than the 24-hour
lookback from now, skip prefilter misses, and return the first qualifying
event's timestamp. -/
def scanEvents (o : OrderData) (now : Int) : List RawEvent → Except Unit (Option Int)
  | [] => Except.ok none
  | e :: rest =>
    if e.isDict = false then scanEvents o now rest
    else if e.tsOk = false then Except.error ()
    else if e.timestamp < now - 86400 then scanEvents o now rest
    else if prefilterB o e = false then scanEvents o now rest
    else if matchesOrder o (eventText e) e.timestamp then some e.timestamp |> Except.ok
    else scanEvents o now rest

/-- On-match mutation of lines 1770-1773: record the payment time; if the
payment preceded the recorded order time, rewrite the order timestamp. -/
def updateOnMatch (o : OrderData) (ts : Int) : OrderData :=
  { o with
    payment_received_at := some ts
    timestamp := if ts < o.timestamp then ts else o.timestamp }

/-- The per-order loop of lines 1634-1788, returning (pending store after
in-place mutations, verified orders, still-pending orders, aborted flag).
An uncaught exception while scanning order i leaves orders before i mutated
and everything from i on untouched. -/
def checkOrdersGo (evs : List RawEvent) (now : Int) :
    List (OrderId × OrderData) →
      List (OrderId × OrderData) × List (OrderId × OrderData) ×
        List (OrderId × OrderData) × Bool
  | [] => ([], [], [], false)
  | (oid, o) :: rest =>
    match scanEvents o now evs with
    | Except.error _ => ((oid, o) :: rest, [], [], true)
    | Except.ok none =>
      let r := checkOrdersGo evs now rest
      ((oid, o) :: r.1, r.2.1, (oid, o) :: r.2.2.1, r.2.2.2)
    | Except.ok (some ts) =>
      let o' := updateOnMatch o ts
      let r := checkOrdersGo evs now rest
      ((oid, o') :: r.1, (oid, o') :: r.2.1, r.2.2.1, r.2.2.2)

/-- Promotion of a verified order (lines 1797-1809): copy to the active set
with `activated_at = now` and `expires_at = now +` coverage length (the
order's hours for XAN, a fixed 2 hours for EXTC).  The status key is not
touched on this path. -/
def activateVerified (o : OrderData) (now : Int) : OrderData :=
  let hrs : Nat :=
    match o.coverage_type with
    | CoverageKind.XAN => o.hours
    | CoverageKind.EXTC => 2
  { o with activated_at := some now, expires_at := some (now + hrs * 3600) }

/-- `perform_order_check(guild, key)`: `.ok (state, still_pending,
activated)` on a completed pass; `.error state` models an uncaught per-event
exception escaping the pass with the partial in-place mutations kept and no
counts returned. -/
def perform_order_check (st : BotState) (events : Option (List RawEvent))
    (now : Int) : Except BotState (BotState × Nat × Nat) :=
  if st.pending_order.isEmpty then Except.ok (st, 0, 0)
  else
    match events with
    | none => Except.ok (st, 0, 0)
    | some evs =>
      if (checkOrdersGo evs now st.pending_order).2.2.2 then
        Except.error
          { st with pending_order := (checkOrdersGo evs now st.pending_order).1 }
      else
        Except.ok
          ({ st with
              pending_order := (checkOrdersGo evs now st.pending_order).2.1.foldl
                (fun pd pr => dictErase pd pr.1)
                (checkOrdersGo evs now st.pending_order).1
              active_orders := (checkOrdersGo evs now st.pending_order).2.1.foldl
                (fun a pr => dictInsert a pr.1 (activateVerified pr.2 now))
                st.active_orders },
            (checkOrdersGo evs now st.pending_order).2.2.1.length,
            (checkOrdersGo evs now st.pending_order).2.1.length)

/- ------------------------------------------------------------------ -/
/- Command surface: purchases, pricing, activation, grants, deletion   -/
/- ------------------------------------------------------------------ -/

/-- `/xan` purchase (xan_insurance, lines 853-989): refuse when XAN pricing
is empty, when the member has any pending order, when the member has any
active order, or when the chosen duration has no pricing entry; otherwise
store a new pending XAN order keyed `(uid, now, false)`. -/
def xan_insurance (st : BotState) (uid : Nat) (uname dname : Chars)
    (hours : Nat) (now : Int) : BotState :=
  if st.pricing_xan.isEmpty then st
  else if hasUser st.pending_order uid then st
  else if hasUser st.active_orders uid then st
  else
    match dictLookup st.pricing_xan hours with
    | none => st
    | some pc =>
      let oid : OrderId := (uid, now, false)
      let o : OrderData :=
        { order0 with
          user_id := uid
          username := uname
          display_name := dname
          coverage_type := CoverageKind.XAN
          hours := hours
          xanax_payment := pc.cost
          xanax_reward := pc.reward
          timestamp := now
          status := some OrderStatus.pending }
      { st with pending_order := dictInsert st.pending_order oid o }

/-- `/extc` purchase (extc_insurance, lines 1004-1137): same guards as the
XAN purchase, over the EXTC pricing table. -/
def extc_insurance (st : BotState) (uid : Nat) (uname dname : Chars)
    (jumps : Nat) (now : Int) : BotState :=
  if st.pricing_extc.isEmpty then st
  else if hasUser st.pending_order uid then st
  else if hasUser st.active_orders uid then st
  else
    match dictLookup st.pricing_extc jumps with
    | none => st
    | some pc =>
      let oid : OrderId := (uid, now, false)
      let o : OrderData :=
        { order0 with
          user_id := uid
          username := uname
          display_name := dname
          coverage_type := CoverageKind.EXTC
          jumps := jumps
          xanax_payment := pc.cost
          edvds_reward := pc.edvds
          xanax_reward := pc.xanax
          ecstasy_reward := pc.ecstasy
          timestamp := now
          status := some OrderStatus.pending }
      { st with pending_order := dictInsert st.pending_order oid o }

/-- `/setxanprice` (set_xan_price, lines 1219-1235). -/
def set_xan_price (st : BotState) (hours cost reward : Nat) : BotState :=
  if hours < 1 || cost < 1 || reward < 1 then st
  else { st with pricing_xan := dictInsert st.pricing_xan hours ⟨cost, reward⟩ }

/-- `/setextcprice` (set_extc_price, lines 1259-1280). -/
def set_extc_price (st : BotState) (jumps cost edvds xrew ecst : Nat) : BotState :=
  if jumps < 1 || cost < 1 || edvds < 1 || xrew < 1 || ecst < 1 then st
  else
    { st with pricing_extc := dictInsert st.pricing_extc jumps ⟨cost, edvds, xrew, ecst⟩ }

/-- `/activate` (activate_order, lines 2051-2097): requires exactly one
pending order for the member; activation time is the recorded
`payment_received_at` when present, else now; expiry is activation plus the
order's hours for XAN or a fixed 2 hours for EXTC; the order is marked
active, moved out of pending, and stored in the active set. -/
def activate_order (st : BotState) (uid : Nat) (now : Int) : BotState :=
  match st.pending_order.filter fun p => p.2.user_id == uid with
  | [(oid, o)] =>
    let activation :=
      match o.payment_received_at with
      | some t => t
      | none => now
    let hrs : Nat :=
      match o.coverage_type with
      | CoverageKind.XAN => o.hours
      | CoverageKind.EXTC => 2
    let o' :=
      { o with
        activated_at := some activation
        expires_at := some (activation + hrs * 3600)
        status := some OrderStatus.active }
    { st with
      active_orders := dictInsert st.active_orders oid o'
      pending_order := dictErase st.pending_order oid }
  | _ => st

/-- `/givecover` (give_coverage, lines 2689-2728): unconditionally stores a
new active order for the member — no pending/active guard is applied.  The
order dict has no `timestamp`, `activated_at` or `expires_at` keys. -/
def give_coverage (st : BotState) (uid : Nat) (uname : Chars)
    (kind : CoverageKind) (duration reward : Nat) (now : Int) : BotState :=
  let oid : OrderId := (uid, now, false)
  let o : OrderData :=
    match kind with
    | CoverageKind.XAN =>
      { order0 with
        user_id := uid
        username := uname
        coverage_type := CoverageKind.XAN
        hours := duration
        xanax_reward := reward }
    | CoverageKind.EXTC =>
      { order0 with
        user_id := uid
        username := uname
        coverage_type := CoverageKind.EXTC
        jumps := duration
        xanax_reward := reward
        ecstasy_reward := 1
        edvds_reward := 3 }
  { st with active_orders := dictInsert st.active_orders oid o }

/-- `/del type:order` (delete_entry, lines 2771-2854): delete the n-th (zero
based) of the member's pending orders, when that index exists. -/
def delete_entry (st : BotState) (uid : Nat) (n : Nat) : BotState :=
  match (st.pending_order.filter fun p => p.2.user_id == uid).get? n with
  | none => st
  | some pr => { st with pending_order := dictErase st.pending_order pr.1 }

/-- Lazy expiry sweep (lines 2300-2339): drop active orders whose
`expires_at` or `activated_at` is missing, and those with now >= expiry. -/
def check_expired (st : BotState) (now : Int) : BotState :=
  { st with
    active_orders := st.active_orders.filter fun p =>
      match p.2.expires_at, p.2.activated_at with
      | some e, some _ => decide (now < e)
      | _, _ => false }

/- ------------------------------------------------------------------ -/
/- Scheduler (auto_check_orders, lines 331-376)                        -/
/- ------------------------------------------------------------------ -/

/-- The two reconciliation passes a scheduler tick can invoke. -/
inductive ReconPass
  | discovery
  | matching
  deriving DecidableEq, Repr

/-- The sequence of reconciliation passes one tick of `auto_check_orders`
runs: nothing unless enabled, the interval has elapsed, a guild exists and
an API key is configured; otherwise `detect_new_orders_from_torn` (line 373)
followed by `perform_order_check` (line 376). -/
def auto_check_orders (enabled : Bool) (elapsedSeconds : Int)
    (intervalMinutes : Int) (hasGuild hasKey : Bool) : List ReconPass :=
  if enabled = false then []
  else if elapsedSeconds < intervalMinutes * 60 then []
  else if hasGuild = false then []
  else if hasKey = false then []
  else [ReconPass.discovery, ReconPass.matching]

/- ------------------------------------------------------------------ -/
/- Order-store state machine                                           -/
/- ------------------------------------------------------------------ -/

/-- One operation on the order store, as the claims enumerate them:
pricing configuration, the two purchase commands, New-Order Discovery,
a Matching Engine pass (completed or aborted by an exception, whose partial
in-place mutations persist), manual activation, admin coverage grants,
pending-order deletion and the lazy expiry sweep. -/
inductive Step : BotState → BotState → Prop
  | setXan (st : BotState) (h c r : Nat) : Step st (set_xan_price st h c r)
  | setExtc (st : BotState) (j c e x y : Nat) : Step st (set_extc_price st j c e x y)
  | purchaseXan (st : BotState) (uid : Nat) (un dn : Chars) (h : Nat) (t : Int) :
      Step st (xan_insurance st uid un dn h t)
  | purchaseExtc (st : BotState) (uid : Nat) (un dn : Chars) (j : Nat) (t : Int) :
      Step st (extc_insurance st uid un dn j t)
  | discover (st : BotState) (roster : List GuildMember)
      (events : Option (List RawEvent)) (t : Int) :
      Step st (detect_new_orders_from_torn roster st events t).1
  | matching (st : BotState) (events : Option (List RawEvent)) (t : Int)
      (st' : BotState) (a b : Nat)
      (h : perform_order_check st events t = Except.ok (st', a, b)) :
      Step st st'
  | matchingFail (st : BotState) (events : Option (List RawEvent)) (t : Int)
      (st' : BotState)
      (h : perform_order_check st events t = Except.error st') :
      Step st st'
  | manualActivate (st : BotState) (uid : Nat) (t : Int) :
      Step st (activate_order st uid t)
  | giveCover (st : BotState) (uid : Nat) (un : Chars) (k : CoverageKind)
      (d r : Nat) (t : Int) :
      Step st (give_coverage st uid un k d r t)
  | deleteOrder (st : BotState) (uid n : Nat) : Step st (delete_entry st uid n)
  | expireSweep (st : BotState) (t : Int) : Step st (check_expired st t)

/-- States reachable from process start through `Step`. -/
inductive Reachable : BotState → Prop
  | init : Reachable initState
  | step {s s' : BotState} : Reachable s → Step s s' → Reachable s'

/-- Same operations with the admin coverage grant excluded. -/
inductive StepNoGrant : BotState → BotState → Prop
  | setXan (st : BotState) (h c r : Nat) : StepNoGrant st (set_xan_price st h c r)
  | setExtc (st : BotState) (j c e x y : Nat) :
      StepNoGrant st (set_extc_price st j c e x y)
  | purchaseXan (st : BotState) (uid : Nat) (un dn : Chars) (h : Nat) (t : Int) :
      StepNoGrant st (xan_insurance st uid un dn h t)
  | purchaseExtc (st : BotState) (uid : Nat) (un dn : Chars) (j : Nat) (t : Int) :
      StepNoGrant st (extc_insurance st uid un dn j t)
  | discover (st : BotState) (roster : List GuildMember)
      (events : Option (List RawEvent)) (t : Int) :
      StepNoGrant st (detect_new_orders_from_torn roster st events t).1
  | matching (st : BotState) (events : Option (List RawEvent)) (t : Int)
      (st' : BotState) (a b : Nat)
      (h : perform_order_check st events t = Except.ok (st', a, b)) :
      StepNoGrant st st'
  | matchingFail (st : BotState) (events : Option (List RawEvent)) (t : Int)
      (st' : BotState)
      (h : perform_order_check st events t = Except.error st') :
      StepNoGrant st st'
  | manualActivate (st : BotState) (uid : Nat) (t : Int) :
      StepNoGrant st (activate_order st uid t)
  | deleteOrder (st : BotState) (uid n : Nat) : StepNoGrant st (delete_entry st uid n)
  | expireSweep (st : BotState) (t : Int) : StepNoGrant st (check_expired st t)

/-- States reachable without admin coverage grants. -/
inductive ReachableNoGrant : BotState → Prop
  | init : ReachableNoGrant initState
  | step {s s' : BotState} : ReachableNoGrant s → StepNoGrant s s' → ReachableNoGrant s'

/- ------------------------------------------------------------------ -/
/- Invariant vocabulary                                                -/
/- ------------------------------------------------------------------ -/

/-- Every stored pair's key carries the user id of its order (all code paths
build keys `f"{user_id}_{ts}"`). -/
def WellKeyed (l : List (OrderId × OrderData)) : Prop :=
  ∀ p ∈ l, p.1.1 = p.2.user_id

/-- Number of orders a member holds in a store (any coverage kind). -/
def usersCount (l : List (OrderId × OrderData)) (uid : Nat) : Nat :=
  (l.filter fun p => p.2.user_id == uid).length

/-- Membership of an order for a given member and coverage kind. -/
def hasUserKind (l : List (OrderId × OrderData)) (uid : Nat)
    (k : CoverageKind) : Bool :=
  l.any fun p => p.2.user_id == uid && p.2.coverage_type == k

/-- Number of pending orders for a given member and coverage kind. -/
def pendingKindCount (st : BotState) (uid : Nat) (k : CoverageKind) : Nat :=
  (st.pending_order.filter fun p =>
    p.2.user_id == uid && p.2.coverage_type == k).length

/-- Inductive store invariant: well-keyed stores, at most one pending order
per member across both kinds, and no member simultaneously pending and
active. -/
def StoreInv (pend act : List (OrderId × OrderData)) : Prop :=
  WellKeyed pend ∧ WellKeyed act ∧
    ∀ m, usersCount pend m ≤ 1 ∧
      (hasUser pend m = true → hasUser act m = false)

/- ------------------------------------------------------------------ -/
/- Concrete scenario data                                              -/
/- ------------------------------------------------------------------ -/

def aliceName : Chars := "Alice".toList

def aliceUser : Chars := "alice".toList

/-- Roster member resolving the sender name in the sample events. -/
def alice : GuildMember where
  id := 1
  username := aliceUser
  display_name := aliceName

def roster1 : List GuildMember := [alice]

def xanEventText : Chars := "You were sent 1x Xanax from Alice with HJSx".toList

def extcEventText : Chars := "You were sent 1x Xanax from Alice with HJSe".toList

/-- A fully qualifying TypeA (XAN) discovery event. -/
def xanEvent : RawEvent where
  id := 101
  isDict := true
  log := xanEventText
  eventF := []
  category := []
  extraStrings := []
  tsOk := true
  timestamp := 1000000

/-- The same payment tagged for EXTC. -/
def extcEvent : RawEvent where
  id := 102
  isDict := true
  log := extcEventText
  eventF := []
  category := []
  extraStrings := []
  tsOk := true
  timestamp := 1000000

/-- An entry whose timestamp field makes `datetime.fromtimestamp` raise. -/
def badEvent : RawEvent where
  id := 201
  isDict := true
  log := []
  eventF := []
  category := []
  extraStrings := []
  tsOk := false
  timestamp := 0

/-- State with the spec's pricing: XAN `{duration=12: cost=1, reward=4}` and
an EXTC tier of the same cost. -/
def pricedState : BotState :=
  { initState with
    pricing_xan := [(12, ⟨1, 4⟩)]
    pricing_extc := [(1, ⟨1, 3, 4, 1⟩)] }

/-- A pending XAN order whose recorded creation time is 23 hours after
`xanEvent`'s timestamp. -/
def order23h : OrderData :=
  { order0 with
    user_id := 1
    username := aliceUser
    display_name := aliceName
    coverage_type := CoverageKind.XAN
    hours := 12
    xanax_payment := 1
    timestamp := 1082800
    status := some OrderStatus.pending }

def st23h : BotState :=
  { initState with pending_order := [((1, 1082800, false), order23h)] }

/-- A pending XAN order created at `xanEvent`'s timestamp. -/
def orderC5 : OrderData :=
  { order0 with
    user_id := 1
    username := aliceUser
    display_name := aliceName
    coverage_type := CoverageKind.XAN
    hours := 12
    xanax_payment := 1
    timestamp := 1000000
    status := some OrderStatus.pending }

def stC5 : BotState :=
  { initState with pending_order := [((1, 1000000, false), orderC5)] }

/-- State after one matching pass of `stC5` against `[xanEvent]`. -/
def stC5' : BotState :=
  { initState with
    active_orders := [((1, 1000000, false),
      { orderC5 with
        payment_received_at := some 1000000
        activated_at := some 1000000
        expires_at := some 1043200 })] }

def c6Text4x : Chars := "4x Xanax".toList

def c6TextSome : Chars := "some Xanax".toList

def c6TextSent7 : Chars := "sent 7 Xanax to you".toList

def c6TextNoise : Chars := "hello there".toList

/-- State reached by configuring XAN pricing, a purchase by member 1, then an
admin coverage grant to the same member and kind. -/
def grantViolationState : BotState :=
  give_coverage
    (xan_insurance (set_xan_price initState 12 1 4) 1 aliceUser aliceName 12 2000000)
    1 aliceUser CoverageKind.XAN 12 4 2000500

deriving instance DecidableEq for Except

instance : Inhabited OrderData := ⟨order0⟩

/- ------------------------------------------------------------------ -/
/- Dict and store lemmas                                               -/
/- ------------------------------------------------------------------ -/

theorem mem_dictErase {κ α : Type} [DecidableEq κ] {l : List (κ × α)} {k : κ}
    {x : κ × α} : x ∈ dictErase l k ↔ x ∈ l ∧ x.1 ≠ k := by
  simp [dictErase]

theorem dictErase_sublist {κ α : Type} [DecidableEq κ] (l : List (κ × α))
    (k : κ) : List.Sublist (dictErase l k) l :=
  List.filter_sublist l

theorem dictInsert_of_not_mem_key {κ α : Type} [DecidableEq κ]
    {l : List (κ × α)} {k : κ} (v : α) (h : ∀ p ∈ l, p.1 ≠ k) :
    dictInsert l k v = l ++ [(k, v)] := by
  unfold dictInsert
  rw [if_neg]
  simp only [List.any_eq_true, decide_eq_true_eq, not_exists]
  intro p hp
  exact h p hp.1 hp.2

theorem hasUser_append {l l' : List (OrderId × OrderData)} {uid : Nat} :
    hasUser (l ++ l') uid = (hasUser l uid || hasUser l' uid) := by
  simp [hasUser]

theorem hasUser_false_iff {l : List (OrderId × OrderData)} {uid : Nat} :
    hasUser l uid = false ↔ ∀ p ∈ l, p.2.user_id ≠ uid := by
  rw [← Bool.not_eq_true]
  simp [hasUser, List.any_eq_true]

theorem hasUser_of_mem {l : List (OrderId × OrderData)} {uid : Nat}
    {x : OrderId × OrderData} (hx : x ∈ l) (hu : x.2.user_id = uid) :
    hasUser l uid = true := by
  simp only [hasUser, List.any_eq_true]
  exact ⟨x, hx, by simp [hu]⟩

theorem exists_of_hasUser {l : List (OrderId × OrderData)} {uid : Nat}
    (h : hasUser l uid = true) : ∃ x ∈ l, x.2.user_id = uid := by
  simp only [hasUser, List.any_eq_true] at h
  obtain ⟨x, hx, hux⟩ := h
  exact ⟨x, hx, by simpa using hux⟩

theorem usersCount_eq_zero {l : List (OrderId × OrderData)} {uid : Nat}
    (h : hasUser l uid = false) : usersCount l uid = 0 := by
  have h' := hasUser_false_iff.mp h
  simp only [usersCount, List.length_eq_zero, List.filter_eq_nil_iff]
  intro p hp
  simpa using h' p hp

theorem usersCount_append {l l' : List (OrderId × OrderData)} {uid : Nat} :
    usersCount (l ++ l') uid = usersCount l uid + usersCount l' uid := by
  simp [usersCount, List.filter_append]

theorem usersCount_sublist {l l' : List (OrderId × OrderData)} {uid : Nat}
    (h : List.Sublist l l') : usersCount l uid ≤ usersCount l' uid :=
  List.Sublist.length_le (h.filter _)

theorem hasUser_sublist {l l' : List (OrderId × OrderData)} {uid : Nat}
    (h : List.Sublist l l') (hu : hasUser l uid = true) :
    hasUser l' uid = true := by
  obtain ⟨x, hx, hux⟩ := exists_of_hasUser hu
  exact hasUser_of_mem (h.mem hx) hux

theorem wellKeyed_of_mem_imp {l l' : List (OrderId × OrderData)}
    (hl : WellKeyed l') (h : ∀ x ∈ l, x ∈ l') : WellKeyed l :=
  fun p hp => hl p (h p hp)

theorem keys_ne_of_hasUser_false {l : List (OrderId × OrderData)} {uid : Nat}
    (hw : WellKeyed l) (h : hasUser l uid = false) (t : Int) (b : Bool) :
    ∀ p ∈ l, p.1 ≠ (uid, t, b) := by
  intro p hp hk
  have hu := hasUser_false_iff.mp h p hp
  have hkey := hw p hp
  apply hu
  rw [← hkey, hk]

theorem wellKeyed_dictInsert {l : List (OrderId × OrderData)} {k : OrderId}
    {v : OrderData} (hl : WellKeyed l) (hk : k.1 = v.user_id) :
    WellKeyed (dictInsert l k v) := by
  unfold dictInsert
  split
  · intro p hp
    obtain ⟨q, hq, hpq⟩ := List.mem_map.mp hp
    by_cases hqk : q.1 = k
    · rw [if_pos hqk] at hpq
      rw [← hpq]
      exact hk
    · rw [if_neg hqk] at hpq
      rw [← hpq]
      exact hl q hq
  · intro p hp
    rcases List.mem_append.mp hp with h1 | h1
    · exact hl p h1
    · simp only [List.mem_singleton] at h1
      rw [h1]
      exact hk

theorem hasUser_dictInsert_imp {l : List (OrderId × OrderData)} {k : OrderId}
    {v : OrderData} {uid : Nat}
    (h : hasUser (dictInsert l k v) uid = true) :
    hasUser l uid = true ∨ v.user_id = uid := by
  unfold dictInsert at h
  split at h
  · obtain ⟨p, hp, hpu⟩ := exists_of_hasUser h
    obtain ⟨q, hq, hpq⟩ := List.mem_map.mp hp
    by_cases hqk : q.1 = k
    · rw [if_pos hqk] at hpq
      right
      rw [← hpq] at hpu
      exact hpu
    · rw [if_neg hqk] at hpq
      left
      exact hasUser_of_mem hq (by rw [hpq]; exact hpu)
  · rw [hasUser_append] at h
    simp only [Bool.or_eq_true] at h
    rcases h with h1 | h1
    · exact Or.inl h1
    · obtain ⟨p, hp, hpu⟩ := exists_of_hasUser h1
      simp only [List.mem_singleton] at hp
      right
      rw [hp] at hpu
      exact hpu

theorem two_le_length_of_mem_ne {α : Type} {l : List α} {a b : α}
    (ha : a ∈ l) (hb : b ∈ l) (hne : a ≠ b) : 2 ≤ l.length := by
  induction l with
  | nil => cases ha
  | cons x xs ih =>
    by_cases hax : a = x
    · have hbx : b ∈ xs := by
        rcases List.mem_cons.mp hb with h1 | h1
        · exact absurd (hax.trans h1.symm) hne
        · exact h1
      have := List.length_pos.mpr (List.ne_nil_of_mem hbx)
      simp only [List.length_cons]
      omega
    · have hax' : a ∈ xs := by
        rcases List.mem_cons.mp ha with h1 | h1
        · exact absurd h1 hax
        · exact h1
      have := List.length_pos.mpr (List.ne_nil_of_mem hax')
      simp only [List.length_cons]
      omega

theorem usersCount_le_one_elim {l : List (OrderId × OrderData)} {uid : Nat}
    (h : usersCount l uid ≤ 1) {x y : OrderId × OrderData}
    (hx : x ∈ l) (hy : y ∈ l) (hux : x.2.user_id = uid)
    (huy : y.2.user_id = uid) : x = y := by
  by_contra hne
  have hx' : x ∈ l.filter fun p => p.2.user_id == uid :=
    List.mem_filter.mpr ⟨hx, by simp [hux]⟩
  have hy' : y ∈ l.filter fun p => p.2.user_id == uid :=
    List.mem_filter.mpr ⟨hy, by simp [huy]⟩
  have := two_le_length_of_mem_ne hx' hy' hne
  unfold usersCount at h
  omega

/- ------------------------------------------------------------------ -/
/- Store-invariant preservation                                        -/
/- ------------------------------------------------------------------ -/

theorem storeInv_insert_pending {pend act : List (OrderId × OrderData)}
    {uid : Nat} {t : Int} {b : Bool} {o : OrderData}
    (hI : StoreInv pend act) (ho : o.user_id = uid)
    (hp : hasUser pend uid = false) (ha : hasUser act uid = false) :
    StoreInv (dictInsert pend (uid, t, b) o) act := by
  obtain ⟨hWp, hWa, hInv⟩ := hI
  have hins : dictInsert pend (uid, t, b) o = pend ++ [((uid, t, b), o)] :=
    dictInsert_of_not_mem_key o (keys_ne_of_hasUser_false hWp hp t b)
  rw [hins]
  refine ⟨?_, hWa, ?_⟩
  · intro p hmem
    rcases List.mem_append.mp hmem with h1 | h1
    · exact hWp p h1
    · simp only [List.mem_singleton] at h1
      rw [h1]
      exact ho.symm
  · intro m
    constructor
    · rw [usersCount_append]
      by_cases hm : m = uid
      · subst hm
        have h0 := usersCount_eq_zero hp
        have h1 : usersCount [((m, t, b), o)] m = 1 := by
          simp [usersCount, List.filter_cons, ho]
        omega
      · have huid : (o.user_id == m) = false := by
          rw [ho]
          exact beq_eq_false_iff_ne.mpr fun hc => hm hc.symm
        have h1 : usersCount [((uid, t, b), o)] m = 0 := by
          simp [usersCount, List.filter_cons, huid]
        have h2 := (hInv m).1
        omega
    · intro hmem
      rw [hasUser_append] at hmem
      simp only [Bool.or_eq_true] at hmem
      rcases hmem with h1 | h1
      · exact (hInv m).2 h1
      · obtain ⟨x, hx, hux⟩ := exists_of_hasUser h1
        simp only [List.mem_singleton] at hx
        rw [hx] at hux
        simp only at hux
        rw [ho] at hux
        rw [← hux]
        exact ha

theorem storeInv_erase_pending {pend act : List (OrderId × OrderData)}
    {k : OrderId} (hI : StoreInv pend act) :
    StoreInv (dictErase pend k) act := by
  obtain ⟨hWp, hWa, hInv⟩ := hI
  refine ⟨?_, hWa, ?_⟩
  · exact wellKeyed_of_mem_imp hWp fun x hx => (mem_dictErase.mp hx).1
  · intro m
    constructor
    · exact le_trans (usersCount_sublist (dictErase_sublist pend k)) (hInv m).1
    · intro hmem
      exact (hInv m).2 (hasUser_sublist (dictErase_sublist pend k) hmem)

theorem storeInv_filter_active {pend act : List (OrderId × OrderData)}
    {q : OrderId × OrderData → Bool} (hI : StoreInv pend act) :
    StoreInv pend (act.filter q) := by
  obtain ⟨hWp, hWa, hInv⟩ := hI
  refine ⟨hWp, ?_, ?_⟩
  · exact wellKeyed_of_mem_imp hWa fun x hx => (List.mem_filter.mp hx).1
  · intro m
    refine ⟨(hInv m).1, ?_⟩
    intro hmem
    have h1 := (hInv m).2 hmem
    rw [← Bool.not_eq_true] at h1 ⊢
    intro hc
    exact h1 (hasUser_sublist (List.filter_sublist act) hc)

theorem storeInv_xan_insurance {st : BotState} {uid : Nat} {un dn : Chars}
    {h : Nat} {t : Int} (hI : StoreInv st.pending_order st.active_orders) :
    StoreInv (xan_insurance st uid un dn h t).pending_order
      (xan_insurance st uid un dn h t).active_orders := by
  cases hpe : st.pricing_xan.isEmpty with
  | true => simp only [xan_insurance, hpe]; simpa using hI
  | false =>
    cases hpend : hasUser st.pending_order uid with
    | true => simp only [xan_insurance, hpe, hpend]; simpa using hI
    | false =>
      cases hact : hasUser st.active_orders uid with
      | true => simp only [xan_insurance, hpe, hpend, hact]; simpa using hI
      | false =>
        cases hlk : dictLookup st.pricing_xan h with
        | none => simp only [xan_insurance, hpe, hpend, hact, hlk]; simpa using hI
        | some pc =>
          simp only [xan_insurance, hpe, hpend, hact, hlk]
          simp only [Bool.false_eq_true, if_false]
          exact storeInv_insert_pending hI rfl hpend hact

theorem storeInv_extc_insurance {st : BotState} {uid : Nat} {un dn : Chars}
    {j : Nat} {t : Int} (hI : StoreInv st.pending_order st.active_orders) :
    StoreInv (extc_insurance st uid un dn j t).pending_order
      (extc_insurance st uid un dn j t).active_orders := by
  cases hpe : st.pricing_extc.isEmpty with
  | true => simp only [extc_insurance, hpe]; simpa using hI
  | false =>
    cases hpend : hasUser st.pending_order uid with
    | true => simp only [extc_insurance, hpe, hpend]; simpa using hI
    | false =>
      cases hact : hasUser st.active_orders uid with
      | true => simp only [extc_insurance, hpe, hpend, hact]; simpa using hI
      | false =>
        cases hlk : dictLookup st.pricing_extc j with
        | none => simp only [extc_insurance, hpe, hpend, hact, hlk]; simpa using hI
        | some pc =>
          simp only [extc_insurance, hpe, hpend, hact, hlk]
          simp only [Bool.false_eq_true, if_false]
          exact storeInv_insert_pending hI rfl hpend hact

theorem detectEligibleMember_guards {roster : List GuildMember} {st : BotState}
    {sender : Chars} {m : GuildMember}
    (h : detectEligibleMember roster st sender = some m) :
    hasUser st.pending_order m.id = false ∧
      hasUser st.active_orders m.id = false := by
  unfold detectEligibleMember at h
  cases hr : resolveMember roster sender with
  | none => rw [hr] at h; cases h
  | some m' =>
    rw [hr] at h
    cases hp : hasUser st.pending_order m'.id with
    | true => simp [hp] at h
    | false =>
      cases ha : hasUser st.active_orders m'.id with
      | true => simp [hp, ha] at h
      | false =>
        simp [hp, ha] at h
        rw [← h]
        exact ⟨hp, ha⟩

theorem detect_step_state {roster : List GuildMember} {now : Int}
    {st : BotState} {e : RawEvent} {st' : BotState} {n : Nat}
    (h : detect_step roster now st e = Except.ok (st', n)) :
    st' = st ∨
      ∃ (m : GuildMember) (o : OrderData),
        o.user_id = m.id ∧
        hasUser st.pending_order m.id = false ∧
        hasUser st.active_orders m.id = false ∧
        st'.pending_order = dictInsert st.pending_order (m.id, now, true) o ∧
        st'.active_orders = st.active_orders := by
  unfold detect_step at h
  split at h
  · obtain ⟨rfl, rfl⟩ : st = st' ∧ 0 = n := by
      injection h with h1; exact ⟨congrArg Prod.fst h1, congrArg Prod.snd h1⟩
    exact Or.inl rfl
  split at h
  · obtain rfl : st = st' := by injection h with h1; exact congrArg Prod.fst h1
    exact Or.inl rfl
  split at h
  · cases h
  split at h
  · obtain rfl : st = st' := by injection h with h1; exact congrArg Prod.fst h1
    exact Or.inl rfl
  split at h
  · obtain rfl : st = st' := by injection h with h1; exact congrArg Prod.fst h1
    exact Or.inl rfl
  split at h
  · cases h
  · obtain rfl : st = st' := by injection h with h1; exact congrArg Prod.fst h1
    exact Or.inl rfl
  · rename_i sender heqSender
    split at h
    · obtain rfl : st = st' := by injection h with h1; exact congrArg Prod.fst h1
      exact Or.inl rfl
    split at h
    · obtain rfl : st = st' := by injection h with h1; exact congrArg Prod.fst h1
      exact Or.inl rfl
    · rename_i m heqMem
      split at h
      · obtain rfl : st = st' := by injection h with h1; exact congrArg Prod.fst h1
        exact Or.inl rfl
      split at h
      · split at h
        · obtain rfl : st = st' := by injection h with h1; exact congrArg Prod.fst h1
          exact Or.inl rfl
        · obtain rfl : st = st' := by injection h with h1; exact congrArg Prod.fst h1
          exact Or.inl rfl
      · split at h
        · obtain rfl : st = st' := by injection h with h1; exact congrArg Prod.fst h1
          exact Or.inl rfl
        · rename_i pr heqPr
          have hst : st' =
              { st with
                pending_order := dictInsert st.pending_order (m.id, now, true)
                  (mkDiscoveredOrder m e sender
                    (extract_payment_amount (eventText e)) pr)
                processed_events := e.id :: st.processed_events } := by
            injection h with h1
            exact (congrArg Prod.fst h1).symm
          obtain ⟨hpend, hact⟩ := detectEligibleMember_guards heqMem
          right
          refine ⟨m, mkDiscoveredOrder m e sender
            (extract_payment_amount (eventText e)) pr, rfl, hpend, hact, ?_, ?_⟩
          · rw [hst]
          · rw [hst]

theorem storeInv_detect_step {roster : List GuildMember} {now : Int}
    {st : BotState} {e : RawEvent} {st' : BotState} {n : Nat}
    (hI : StoreInv st.pending_order st.active_orders)
    (h : detect_step roster now st e = Except.ok (st', n)) :
    StoreInv st'.pending_order st'.active_orders := by
  rcases detect_step_state h with rfl | ⟨m, o, ho, hpend, hact, hp, ha⟩
  · exact hI
  · rw [hp, ha]
    exact storeInv_insert_pending hI ho hpend hact

theorem storeInv_detectLoop {roster : List GuildMember} {now : Int} :
    ∀ (evs : List RawEvent) (st : BotState) (cnt : Nat),
      StoreInv st.pending_order st.active_orders →
      StoreInv (detectLoop roster now evs st cnt).1.pending_order
        (detectLoop roster now evs st cnt).1.active_orders := by
  intro evs
  induction evs with
  | nil => intro st cnt hI; exact hI
  | cons e rest ih =>
    intro st cnt hI
    simp only [detectLoop]
    cases hstep : detect_step roster now st e with
    | error u => exact hI
    | ok r =>
      obtain ⟨st1, made⟩ := r
      exact ih st1 (cnt + made) (storeInv_detect_step hI hstep)

theorem detect_fst (roster : List GuildMember) (st : BotState)
    (evs : List RawEvent) (now : Int) :
    (detect_new_orders_from_torn roster st (some evs) now).1 =
      (detectLoop roster now evs st 0).1 := by
  unfold detect_new_orders_from_torn
  cases he : evs.isEmpty with
  | true =>
    have hnil : evs = [] := List.isEmpty_iff.mp he
    subst hnil
    rfl
  | false => simp [he]

theorem storeInv_detect {roster : List GuildMember} {st : BotState}
    {events : Option (List RawEvent)} {now : Int}
    (hI : StoreInv st.pending_order st.active_orders) :
    StoreInv (detect_new_orders_from_torn roster st events now).1.pending_order
      (detect_new_orders_from_torn roster st events now).1.active_orders := by
  cases events with
  | none => exact hI
  | some evs =>
    rw [detect_fst]
    exact storeInv_detectLoop evs st 0 hI

/- ------------------------------------------------------------------ -/
/- Matching-pass structural lemmas                                     -/
/- ------------------------------------------------------------------ -/

/-- Key and owner are preserved between a pending entry and its (possibly
in-place mutated) image in the scan result. -/
abbrev rKU (x y : OrderId × OrderData) : Prop :=
  x.1 = y.1 ∧ x.2.user_id = y.2.user_id

theorem checkOrdersGo_rel (evs : List RawEvent) (now : Int) :
    ∀ l : List (OrderId × OrderData),
      List.Forall₂ rKU l (checkOrdersGo evs now l).1 := by
  intro l
  induction l with
  | nil => exact List.Forall₂.nil
  | cons hd tl ih =>
    obtain ⟨oid, o⟩ := hd
    cases hscan : scanEvents o now evs with
    | error u =>
      simp only [checkOrdersGo, hscan]
      exact List.forall₂_same.mpr fun x _ => ⟨rfl, rfl⟩
    | ok r =>
      cases r with
      | none =>
        simp only [checkOrdersGo, hscan]
        exact List.Forall₂.cons ⟨rfl, rfl⟩ ih
      | some ts =>
        simp only [checkOrdersGo, hscan]
        exact List.Forall₂.cons ⟨rfl, rfl⟩ ih

theorem checkOrdersGo_verified_sub (evs : List RawEvent) (now : Int) :
    ∀ l : List (OrderId × OrderData),
      ∀ x ∈ (checkOrdersGo evs now l).2.1, x ∈ (checkOrdersGo evs now l).1 := by
  intro l
  induction l with
  | nil => intro x hx; cases hx
  | cons hd tl ih =>
    obtain ⟨oid, o⟩ := hd
    cases hscan : scanEvents o now evs with
    | error u =>
      simp only [checkOrdersGo, hscan]
      intro x hx
      cases hx
    | ok r =>
      cases r with
      | none =>
        simp only [checkOrdersGo, hscan]
        intro x hx
        exact List.mem_cons_of_mem _ (ih x hx)
      | some ts =>
        simp only [checkOrdersGo, hscan]
        intro x hx
        rcases List.mem_cons.mp hx with h1 | h1
        · rw [h1]; exact List.mem_cons_self _ _
        · exact List.mem_cons_of_mem _ (ih x h1)

theorem forall2_hasUser {l p : List (OrderId × OrderData)}
    (h : List.Forall₂ rKU l p) (uid : Nat) :
    hasUser p uid = hasUser l uid := by
  induction h with
  | nil => rfl
  | @cons a b l' p' hab htl ih =>
    simp only [hasUser, List.any_cons] at ih ⊢
    rw [hab.2, ih]

theorem forall2_usersCount {l p : List (OrderId × OrderData)}
    (h : List.Forall₂ rKU l p) (uid : Nat) :
    usersCount p uid = usersCount l uid := by
  induction h with
  | nil => rfl
  | @cons a b l' p' hab htl ih =>
    simp only [usersCount, List.filter_cons] at ih ⊢
    rw [hab.2]
    cases hc : b.2.user_id == uid <;> simp [hc, ih]

theorem forall2_mem_right {l p : List (OrderId × OrderData)}
    (h : List.Forall₂ rKU l p) :
    ∀ x ∈ p, ∃ y ∈ l, y.1 = x.1 ∧ y.2.user_id = x.2.user_id := by
  induction h with
  | nil => intro x hx; cases hx
  | @cons a b l' p' hab htl ih =>
    intro x hx
    rcases List.mem_cons.mp hx with h1 | h1
    · subst h1
      exact ⟨a, List.mem_cons_self _ _, hab⟩
    · obtain ⟨y, hy, hr⟩ := ih x h1
      exact ⟨y, List.mem_cons_of_mem _ hy, hr⟩

theorem foldl_dictErase_sublist (v : List (OrderId × OrderData)) :
    ∀ p : List (OrderId × OrderData),
      List.Sublist (v.foldl (fun pd pr => dictErase pd pr.1) p) p := by
  induction v with
  | nil => intro p; exact List.Sublist.refl p
  | cons hd tl ih =>
    intro p
    simp only [List.foldl_cons]
    exact (ih (dictErase p hd.1)).trans (dictErase_sublist p hd.1)

theorem mem_foldl_dictErase {v : List (OrderId × OrderData)} :
    ∀ {p : List (OrderId × OrderData)} {x : OrderId × OrderData},
      x ∈ v.foldl (fun pd pr => dictErase pd pr.1) p →
      x ∈ p ∧ ∀ pr ∈ v, x.1 ≠ pr.1 := by
  induction v with
  | nil =>
    intro p x hx
    exact ⟨hx, fun pr hpr => absurd hpr (List.not_mem_nil pr)⟩
  | cons hd tl ih =>
    intro p x hx
    simp only [List.foldl_cons] at hx
    obtain ⟨h1, h2⟩ := ih hx
    obtain ⟨h3, h4⟩ := mem_dictErase.mp h1
    refine ⟨h3, ?_⟩
    intro pr hpr
    rcases List.mem_cons.mp hpr with h5 | h5
    · rw [h5]; exact h4
    · exact h2 pr h5

theorem hasUser_foldl_activate {now : Int} (v : List (OrderId × OrderData)) :
    ∀ (act : List (OrderId × OrderData)) (uid : Nat),
      hasUser (v.foldl
        (fun a pr => dictInsert a pr.1 (activateVerified pr.2 now)) act) uid = true →
      hasUser act uid = true ∨ ∃ pr ∈ v, pr.2.user_id = uid := by
  induction v with
  | nil => intro act uid h; exact Or.inl h
  | cons hd tl ih =>
    intro act uid h
    simp only [List.foldl_cons] at h
    rcases ih _ uid h with h1 | ⟨pr, hpr, hu⟩
    · rcases hasUser_dictInsert_imp h1 with h2 | h2
      · exact Or.inl h2
      · exact Or.inr ⟨hd, List.mem_cons_self _ _, h2⟩
    · exact Or.inr ⟨pr, List.mem_cons_of_mem _ hpr, hu⟩

theorem wellKeyed_foldl_activate {now : Int} (v : List (OrderId × OrderData)) :
    ∀ act : List (OrderId × OrderData), WellKeyed act →
      (∀ pr ∈ v, pr.1.1 = pr.2.user_id) →
      WellKeyed (v.foldl
        (fun a pr => dictInsert a pr.1 (activateVerified pr.2 now)) act) := by
  induction v with
  | nil => intro act ha _; exact ha
  | cons hd tl ih =>
    intro act ha hv
    simp only [List.foldl_cons]
    apply ih
    · exact wellKeyed_dictInsert ha (hv hd (List.mem_cons_self _ _))
    · intro pr hpr
      exact hv pr (List.mem_cons_of_mem _ hpr)


theorem storeInv_perform_ok {st : BotState} {events : Option (List RawEvent)}
    {now : Int} {st' : BotState} {a b : Nat}
    (hI : StoreInv st.pending_order st.active_orders)
    (h : perform_order_check st events now = Except.ok (st', a, b)) :
    StoreInv st'.pending_order st'.active_orders := by
  cases events with
  | none =>
    simp only [perform_order_check] at h
    split at h
    · obtain rfl : st = st' := by injection h with h1; exact congrArg Prod.fst h1
      exact hI
    · obtain rfl : st = st' := by injection h with h1; exact congrArg Prod.fst h1
      exact hI
  | some evs =>
    simp only [perform_order_check] at h
    split at h
    · obtain rfl : st = st' := by injection h with h1; exact congrArg Prod.fst h1
      exact hI
    · split at h
      · exact Except.noConfusion h
      · have hst : st' =
            { st with
              pending_order := (checkOrdersGo evs now st.pending_order).2.1.foldl
                (fun pd pr => dictErase pd pr.1)
                (checkOrdersGo evs now st.pending_order).1
              active_orders := (checkOrdersGo evs now st.pending_order).2.1.foldl
                (fun a pr => dictInsert a pr.1 (activateVerified pr.2 now))
                st.active_orders } := by
          injection h with h1
          exact (congrArg Prod.fst h1).symm
        subst hst
        obtain ⟨hWp, hWa, hInv⟩ := hI
        have hrel := checkOrdersGo_rel evs now st.pending_order
        have hvs := checkOrdersGo_verified_sub evs now st.pending_order
        have hWp' : WellKeyed (checkOrdersGo evs now st.pending_order).1 := by
          intro x hx
          obtain ⟨y, hy, hy1, hy2⟩ := forall2_mem_right hrel x hx
          rw [← hy1, ← hy2]
          exact hWp y hy
        refine ⟨?_, ?_, ?_⟩
        · exact wellKeyed_of_mem_imp hWp'
            fun x hx => ((foldl_dictErase_sublist _ _).mem hx)
        · exact wellKeyed_foldl_activate _ _ hWa
            fun pr hpr => hWp' pr (hvs pr hpr)
        · intro m
          constructor
          · calc usersCount _ m
                ≤ usersCount (checkOrdersGo evs now st.pending_order).1 m :=
                  usersCount_sublist (foldl_dictErase_sublist _ _)
              _ = usersCount st.pending_order m := forall2_usersCount hrel m
              _ ≤ 1 := (hInv m).1
          · intro hmem
            obtain ⟨x, hx, hux⟩ := exists_of_hasUser hmem
            obtain ⟨hxp, hxkeys⟩ := mem_foldl_dictErase hx
            have hPm : hasUser st.pending_order m = true := by
              rw [← forall2_hasUser hrel m]
              exact hasUser_of_mem hxp hux
            have hActF : hasUser st.active_orders m = false := (hInv m).2 hPm
            have hCnt :
                usersCount (checkOrdersGo evs now st.pending_order).1 m ≤ 1 := by
              rw [forall2_usersCount hrel m]
              exact (hInv m).1
            cases hA : hasUser ((checkOrdersGo evs now st.pending_order).2.1.foldl
                (fun a pr => dictInsert a pr.1 (activateVerified pr.2 now))
                st.active_orders) m with
            | false => rfl
            | true =>
              exfalso
              rcases hasUser_foldl_activate _ _ _ hA with h1 | ⟨pr, hpr, hu⟩
              · rw [hActF] at h1; cases h1
              · have hprp := hvs pr hpr
                have hxe : x = pr := usersCount_le_one_elim hCnt hxp hprp hux hu
                exact hxkeys pr hpr (by rw [hxe])

theorem storeInv_perform_error {st : BotState} {events : Option (List RawEvent)}
    {now : Int} {stE : BotState}
    (hI : StoreInv st.pending_order st.active_orders)
    (h : perform_order_check st events now = Except.error stE) :
    StoreInv stE.pending_order stE.active_orders := by
  cases events with
  | none =>
    simp only [perform_order_check] at h
    split at h
    · exact Except.noConfusion h
    · exact Except.noConfusion h
  | some evs =>
    simp only [perform_order_check] at h
    split at h
    · exact Except.noConfusion h
    · split at h
      · have hst : stE =
            { st with
              pending_order := (checkOrdersGo evs now st.pending_order).1 } := by
          injection h with h1
          exact h1.symm
        subst hst
        obtain ⟨hWp, hWa, hInv⟩ := hI
        have hrel := checkOrdersGo_rel evs now st.pending_order
        have hWp' : WellKeyed (checkOrdersGo evs now st.pending_order).1 := by
          intro x hx
          obtain ⟨y, hy, hy1, hy2⟩ := forall2_mem_right hrel x hx
          rw [← hy1, ← hy2]
          exact hWp y hy
        refine ⟨hWp', hWa, ?_⟩
        intro m
        constructor
        · rw [forall2_usersCount hrel m]
          exact (hInv m).1
        · intro hmem
          rw [forall2_hasUser hrel m] at hmem
          exact (hInv m).2 hmem
      · exact Except.noConfusion h

theorem storeInv_move_to_active {pend act : List (OrderId × OrderData)}
    {oid : OrderId} {o O : OrderData} {uid : Nat}
    (hI : StoreInv pend act)
    (hf : pend.filter (fun p => p.2.user_id == uid) = [(oid, o)])
    (hOu : O.user_id = uid) :
    StoreInv (dictErase pend oid) (dictInsert act oid O) := by
  obtain ⟨hWp, hWa, hInv⟩ := hI
  have hmem : (oid, o) ∈ pend ∧ (o.user_id == uid) = true := by
    have : (oid, o) ∈ pend.filter fun p => p.2.user_id == uid := by
      rw [hf]; exact List.mem_cons_self _ _
    exact List.mem_filter.mp this
  have ho : o.user_id = uid := by simpa using hmem.2
  have hkey : oid.1 = uid := by rw [hWp (oid, o) hmem.1]; exact ho
  have hErNoUid : hasUser (dictErase pend oid) uid = false := by
    rw [hasUser_false_iff]
    intro p hp hpu
    obtain ⟨hp1, hp2⟩ := mem_dictErase.mp hp
    have : p ∈ pend.filter fun q => q.2.user_id == uid :=
      List.mem_filter.mpr ⟨hp1, by simp [hpu]⟩
    rw [hf] at this
    simp only [List.mem_singleton] at this
    exact hp2 (by rw [this])
  refine ⟨?_, ?_, ?_⟩
  · exact wellKeyed_of_mem_imp hWp fun x hx => (mem_dictErase.mp hx).1
  · exact wellKeyed_dictInsert hWa (by rw [hOu]; exact hkey)
  · intro m
    constructor
    · exact le_trans (usersCount_sublist (dictErase_sublist _ _)) (hInv m).1
    · intro hmem2
      have hPm : hasUser pend m = true :=
        hasUser_sublist (dictErase_sublist _ _) hmem2
      have hAmF : hasUser act m = false := (hInv m).2 hPm
      cases hA2 : hasUser (dictInsert act oid O) m with
      | false => rfl
      | true =>
        exfalso
        rcases hasUser_dictInsert_imp hA2 with h1 | h1
        · rw [hAmF] at h1; cases h1
        · rw [hOu] at h1
          rw [← h1] at hmem2
          rw [hErNoUid] at hmem2
          cases hmem2

theorem storeInv_activate_order {st : BotState} {uid : Nat} {now : Int}
    (hI : StoreInv st.pending_order st.active_orders) :
    StoreInv (activate_order st uid now).pending_order
      (activate_order st uid now).active_orders := by
  cases hf : st.pending_order.filter fun p => p.2.user_id == uid with
  | nil => simp only [activate_order, hf]; exact hI
  | cons pr rest =>
    obtain ⟨oid, o⟩ := pr
    cases rest with
    | cons pr2 rest2 => simp only [activate_order, hf]; exact hI
    | nil =>
      simp only [activate_order, hf]
      have ho : o.user_id = uid := by
        have : (oid, o) ∈ st.pending_order.filter fun p => p.2.user_id == uid := by
          rw [hf]; exact List.mem_cons_self _ _
        simpa using (List.mem_filter.mp this).2
      exact storeInv_move_to_active hI hf ho

theorem storeInv_delete_entry {st : BotState} {uid n : Nat}
    (hI : StoreInv st.pending_order st.active_orders) :
    StoreInv (delete_entry st uid n).pending_order
      (delete_entry st uid n).active_orders := by
  unfold delete_entry
  cases hg : (st.pending_order.filter fun p => p.2.user_id == uid).get? n with
  | none => exact hI
  | some pr => exact storeInv_erase_pending hI

theorem storeInv_check_expired {st : BotState} {now : Int}
    (hI : StoreInv st.pending_order st.active_orders) :
    StoreInv (check_expired st now).pending_order
      (check_expired st now).active_orders :=
  storeInv_filter_active hI

theorem storeInv_set_xan_price {st : BotState} {h c r : Nat}
    (hI : StoreInv st.pending_order st.active_orders) :
    StoreInv (set_xan_price st h c r).pending_order
      (set_xan_price st h c r).active_orders := by
  unfold set_xan_price
  split
  · exact hI
  · exact hI

theorem storeInv_set_extc_price {st : BotState} {j c e x y : Nat}
    (hI : StoreInv st.pending_order st.active_orders) :
    StoreInv (set_extc_price st j c e x y).pending_order
      (set_extc_price st j c e x y).active_orders := by
  unfold set_extc_price
  split
  · exact hI
  · exact hI

theorem storeInv_reachableNoGrant {st : BotState} (h : ReachableNoGrant st) :
    StoreInv st.pending_order st.active_orders := by
  induction h with
  | init =>
    refine ⟨fun p hp => absurd hp (List.not_mem_nil p),
      fun p hp => absurd hp (List.not_mem_nil p), fun m => ⟨?_, ?_⟩⟩
    · simp [usersCount, initState]
    · simp [hasUser, initState]
  | step hr hs ih =>
    cases hs with
    | setXan h c r => exact storeInv_set_xan_price ih
    | setExtc j c e x y => exact storeInv_set_extc_price ih
    | purchaseXan uid un dn h t => exact storeInv_xan_insurance ih
    | purchaseExtc uid un dn j t => exact storeInv_extc_insurance ih
    | discover roster events t => exact storeInv_detect ih
    | matching events t st' a b => exact storeInv_perform_ok ih (by assumption)
    | matchingFail events t st' => exact storeInv_perform_error ih (by assumption)
    | manualActivate uid t => exact storeInv_activate_order ih
    | deleteOrder uid n => exact storeInv_delete_entry ih
    | expireSweep t => exact storeInv_check_expired ih

theorem length_filter_and_le (l : List (OrderId × OrderData)) (uid : Nat)
    (k : CoverageKind) :
    (l.filter fun p => p.2.user_id == uid && p.2.coverage_type == k).length ≤
      (l.filter fun p => p.2.user_id == uid).length := by
  induction l with
  | nil => simp
  | cons hd tl ih =>
    simp only [List.filter_cons]
    cases h1 : hd.2.user_id == uid <;> cases h2 : hd.2.coverage_type == k <;>
      simp [h1, h2] <;> omega

theorem hasUserKind_imp_hasUser {l : List (OrderId × OrderData)} {uid : Nat}
    {k : CoverageKind} (h : hasUserKind l uid k = true) :
    hasUser l uid = true := by
  simp only [hasUserKind, List.any_eq_true, Bool.and_eq_true] at h
  obtain ⟨x, hx, hu, _⟩ := h
  exact hasUser_of_mem hx (by simpa using hu)

/- ------------------------------------------------------------------ -/
/- Idempotence lemmas for the matching pass                            -/
/- ------------------------------------------------------------------ -/

theorem checkOrdersGo_none_of_mem (evs : List RawEvent) (now : Int) :
    ∀ l : List (OrderId × OrderData),
      (checkOrdersGo evs now l).2.2.2 = false →
      ∀ x ∈ (checkOrdersGo evs now l).1,
        scanEvents x.2 now evs = Except.ok none ∨
          x ∈ (checkOrdersGo evs now l).2.1 := by
  intro l
  induction l with
  | nil => intro _ x hx; cases hx
  | cons hd tl ih =>
    obtain ⟨oid, o⟩ := hd
    cases hscan : scanEvents o now evs with
    | error u =>
      simp only [checkOrdersGo, hscan]
      intro hab
      cases hab
    | ok r =>
      cases r with
      | none =>
        simp only [checkOrdersGo, hscan]
        intro hab x hx
        rcases List.mem_cons.mp hx with h1 | h1
        · left; rw [h1]; exact hscan
        · exact ih hab x h1
      | some ts =>
        simp only [checkOrdersGo, hscan]
        intro hab x hx
        rcases List.mem_cons.mp hx with h1 | h1
        · right; rw [h1]; exact List.mem_cons_self _ _
        · rcases ih hab x h1 with h2 | h2
          · exact Or.inl h2
          · exact Or.inr (List.mem_cons_of_mem _ h2)

theorem checkOrdersGo_all_none (evs : List RawEvent) (now : Int) :
    ∀ l : List (OrderId × OrderData),
      (∀ x ∈ l, scanEvents x.2 now evs = Except.ok none) →
      checkOrdersGo evs now l = (l, [], l, false) := by
  intro l
  induction l with
  | nil => intro _; rfl
  | cons hd tl ih =>
    intro h
    obtain ⟨oid, o⟩ := hd
    have hhd : scanEvents o now evs = Except.ok none :=
      h (oid, o) (List.mem_cons_self _ _)
    have htl := ih fun x hx => h x (List.mem_cons_of_mem _ hx)
    simp only [checkOrdersGo, hhd, htl]

theorem perform_all_none {st : BotState} {evs : List RawEvent} {now : Int}
    (h : ∀ x ∈ st.pending_order, scanEvents x.2 now evs = Except.ok none) :
    ∃ a', perform_order_check st (some evs) now = Except.ok (st, a', 0) := by
  cases hemp : st.pending_order.isEmpty with
  | true =>
    refine ⟨0, ?_⟩
    simp [perform_order_check, hemp]
  | false =>
    have hGo : checkOrdersGo evs now st.pending_order =
        (st.pending_order, [], st.pending_order, false) :=
      checkOrdersGo_all_none evs now st.pending_order h
    refine ⟨st.pending_order.length, ?_⟩
    simp [perform_order_check, hemp, hGo]

/- ------------------------------------------------------------------ -/
/- Exception-propagation lemmas                                        -/
/- ------------------------------------------------------------------ -/

theorem detect_step_error_of_bad {roster : List GuildMember} {now : Int}
    {st : BotState} {b : RawEvent} (hb1 : b.isDict = true) (hb2 : b.tsOk = false)
    (hproc : st.processed_events.contains b.id = false) :
    detect_step roster now st b = Except.error () := by
  have hmem : b.id ∉ st.processed_events := by simpa using hproc
  simp [detect_step, hb1, hb2, hmem]

theorem detectLoop_append_abort {roster : List GuildMember} {now : Int}
    {b : RawEvent} (suf : List RawEvent) (hb1 : b.isDict = true)
    (hb2 : b.tsOk = false) :
    ∀ (pre : List RawEvent) (st : BotState) (cnt : Nat),
      (detectLoop roster now pre st cnt).2.2 = false →
      (detectLoop roster now pre st cnt).1.processed_events.contains b.id = false →
      detectLoop roster now (pre ++ b :: suf) st cnt =
        ((detectLoop roster now pre st cnt).1,
          (detectLoop roster now pre st cnt).2.1, true) := by
  intro pre
  induction pre with
  | nil =>
    intro st cnt hf hproc
    simp only [detectLoop] at hproc
    have hstep := @detect_step_error_of_bad roster now st b hb1 hb2 hproc
    simp only [List.nil_append, detectLoop, hstep]
  | cons e rest ih =>
    intro st cnt hf hproc
    cases hstep : detect_step roster now st e with
    | error u =>
      simp only [detectLoop, hstep] at hf
      cases hf
    | ok r =>
      obtain ⟨st1, made⟩ := r
      simp only [detectLoop, hstep] at hf hproc
      simp only [List.cons_append, detectLoop, hstep]
      exact ih st1 (cnt + made) hf hproc

theorem perform_error_of_first_scan {st : BotState} {evs : List RawEvent}
    {now : Int} {oid : OrderId} {o : OrderData}
    {rest : List (OrderId × OrderData)}
    (hp : st.pending_order = (oid, o) :: rest)
    (hscan : scanEvents o now evs = Except.error ()) :
    perform_order_check st (some evs) now = Except.error st := by
  have hemp : st.pending_order.isEmpty = false := by rw [hp]; rfl
  have hGo : checkOrdersGo evs now st.pending_order =
      ((oid, o) :: rest, [], [], true) := by
    rw [hp]
    simp only [checkOrdersGo, hscan]
  simp only [perform_order_check, hemp, hGo]
  rw [← hp]
  simp

/- ------------------------------------------------------------------ -/
/- Match characterization lemmas                                       -/
/- ------------------------------------------------------------------ -/

theorem matchesOrder_false_of_window {o : OrderData} {text : Chars} {ts : Int}
    (h : 3600 < (ts - o.timestamp).natAbs) : matchesOrder o text ts = false := by
  unfold matchesOrder
  have hdec : decide ((ts - o.timestamp).natAbs ≤ 3600) = false :=
    decide_eq_false (by omega)
  simp [hdec]

theorem scanEvents_not_match_of_window {o : OrderData} {now : Int} :
    ∀ (evs : List RawEvent),
      (∀ e ∈ evs, 3600 < (e.timestamp - o.timestamp).natAbs) →
      ∀ ts : Int, scanEvents o now evs ≠ Except.ok (some ts) := by
  intro evs
  induction evs with
  | nil => intro _ ts h; simp [scanEvents] at h
  | cons e rest ih =>
    intro hw ts h
    have hwr := fun e' he' => hw e' (List.mem_cons_of_mem _ he')
    unfold scanEvents at h
    split at h
    · exact ih hwr ts h
    · split at h
      · exact Except.noConfusion h
      · split at h
        · exact ih hwr ts h
        · split at h
          · exact ih hwr ts h
          · split at h
            · rename_i hm
              rw [matchesOrder_false_of_window
                (hw e (List.mem_cons_self _ _))] at hm
              cases hm
            · exact ih hwr ts h

theorem scanEvents_mem {o : OrderData} {now : Int} :
    ∀ (evs : List RawEvent) (ts : Int),
      scanEvents o now evs = Except.ok (some ts) →
      ∃ e ∈ evs, e.timestamp = ts ∧ matchesOrder o (eventText e) ts = true := by
  intro evs
  induction evs with
  | nil => intro ts h; simp [scanEvents] at h
  | cons e rest ih =>
    intro ts h
    unfold scanEvents at h
    split at h
    · obtain ⟨e', he', hr⟩ := ih ts h
      exact ⟨e', List.mem_cons_of_mem _ he', hr⟩
    · split at h
      · exact Except.noConfusion h
      · split at h
        · obtain ⟨e', he', hr⟩ := ih ts h
          exact ⟨e', List.mem_cons_of_mem _ he', hr⟩
        · split at h
          · obtain ⟨e', he', hr⟩ := ih ts h
            exact ⟨e', List.mem_cons_of_mem _ he', hr⟩
          · split at h
            · rename_i hm
              have hts : e.timestamp = ts := by
                injection h with h1
                injection h1
              refine ⟨e, List.mem_cons_self _ _, hts, ?_⟩
              rw [← hts]
              exact hm
            · obtain ⟨e', he', hr⟩ := ih ts h
              exact ⟨e', List.mem_cons_of_mem _ he', hr⟩

/- ------------------------------------------------------------------ -/
/- Claim theorems                                                      -/
/- ------------------------------------------------------------------ -/

/-- C1: evaluation of the code at the failing input.  The TypeA (XAN) event
`xanEvent` passes every New-Order Discovery predicate — XAN intent (tag and
transfer phrasing), an extractable sender resolving to an eligible member,
amount 1 equal to the configured cost of the duration-12 XAN tier — yet the
discovery pass returns the state unchanged with zero new orders, because the
store/mark/count block of the source sits inside the EXTC branch.  The same
payment tagged for EXTC does create one pending order, exhibiting the
asymmetry. -/
theorem tornbot_C1_xan_discovery_creates_nothing :
    isXanOrderB (lowerStr xanEventText) = true ∧
    extractSender xanEventText (lowerStr xanEventText) =
      Except.ok (some aliceName) ∧
    (detectEligibleMember roster1 pricedState aliceName).isSome = true ∧
    extract_payment_amount xanEventText = 1 ∧
    (pricedState.pricing_xan.find? fun p => p.2.cost == 1) = some (12, ⟨1, 4⟩) ∧
    detect_new_orders_from_torn roster1 pricedState (some [xanEvent]) 1000000 =
      (pricedState, 0) ∧
    (detect_new_orders_from_torn roster1 pricedState
      (some [extcEvent]) 1000000).1.pending_order.length = 1 ∧
    (detect_new_orders_from_torn roster1 pricedState
      (some [extcEvent]) 1000000).2 = 1 := by
  decide

/-- C6: three-tier amount extraction over event text: the numeric-prefix
pattern gives 4 for `4x Xanax` and 7 for `sent 7 Xanax to you`, the literal
`some Xanax` phrase maps to 1, and text containing neither the currency name
nor a number yields 0 (no match; the event is skipped). -/
theorem tornbot_C6_amount_extraction :
    extract_payment_amount c6Text4x = 4 ∧
    extract_payment_amount c6TextSome = 1 ∧
    extract_payment_amount c6TextSent7 = 7 ∧
    extract_payment_amount c6TextNoise = 0 := by
  decide

/-- C2 counterexample: the claim as stated is false.  The state reached by
configuring XAN pricing, a purchase by member 1, and then an admin coverage
grant (`/givecover`) to the same member and kind is reachable, yet member 1
then holds a pending and an active XAN order simultaneously: `give_coverage`
applies no pending/active guard. -/
theorem tornbot_C2_counterexample :
    Reachable grantViolationState ∧
    hasUserKind grantViolationState.pending_order 1 CoverageKind.XAN = true ∧
    hasUserKind grantViolationState.active_orders 1 CoverageKind.XAN = true := by
  refine ⟨?_, by decide, by decide⟩
  have h0 : Reachable initState := Reachable.init
  have h1 : Reachable (set_xan_price initState 12 1 4) :=
    Reachable.step h0 (Step.setXan initState 12 1 4)
  have h2 : Reachable (xan_insurance (set_xan_price initState 12 1 4) 1
      aliceUser aliceName 12 2000000) :=
    Reachable.step h1 (Step.purchaseXan _ 1 aliceUser aliceName 12 2000000)
  exact Reachable.step h2
    (Step.giveCover _ 1 aliceUser CoverageKind.XAN 12 4 2000500)

/-- C2 amended: for every state reachable without admin coverage grants
(purchase commands, New-Order Discovery, Matching Engine passes — completed
or aborted — manual activation, deletions, the expiry sweep and pricing
configuration), no member and coverage kind ever has two pending orders, or
a pending and an active order simultaneously. -/
theorem tornbot_C2_amended (st : BotState) (h : ReachableNoGrant st)
    (m : Nat) (k : CoverageKind) :
    pendingKindCount st m k ≤ 1 ∧
    ¬(hasUserKind st.pending_order m k = true ∧
      hasUserKind st.active_orders m k = true) := by
  obtain ⟨hWp, hWa, hInv⟩ := storeInv_reachableNoGrant h
  constructor
  · unfold pendingKindCount
    exact le_trans (length_filter_and_le _ _ _) (hInv m).1
  · rintro ⟨h1, h2⟩
    have h3 := (hInv m).2 (hasUserKind_imp_hasUser h1)
    have h4 := hasUserKind_imp_hasUser h2
    rw [h4] at h3
    exact Bool.noConfusion h3

/-- Witness for C2 amended at the state reached by a pricing configuration
followed by a purchase. -/
theorem tornbot_C2_witness :
    pendingKindCount (xan_insurance (set_xan_price initState 12 1 4) 1
      aliceUser aliceName 12 2000000) 1 CoverageKind.XAN ≤ 1 ∧
    ¬(hasUserKind (xan_insurance (set_xan_price initState 12 1 4) 1
        aliceUser aliceName 12 2000000).pending_order 1 CoverageKind.XAN = true ∧
      hasUserKind (xan_insurance (set_xan_price initState 12 1 4) 1
        aliceUser aliceName 12 2000000).active_orders 1 CoverageKind.XAN = true) :=
  tornbot_C2_amended _
    (ReachableNoGrant.step
      (ReachableNoGrant.step ReachableNoGrant.init
        (StepNoGrant.setXan initState 12 1 4))
      (StepNoGrant.purchaseXan _ 1 aliceUser aliceName 12 2000000))
    1 CoverageKind.XAN

/-- C3 counterexample: the claim's second half is false.  `xanEvent` is 23
hours (82800 seconds) away from `order23h`'s creation, every other matching
predicate holds (currency mention, tag token, transfer phrase, amount,
identity) and the event is within the 24-hour lookback from the reference
time, yet the matching pass leaves the order pending (1 still pending, 0
activated, state unchanged): the engine also requires the event within one
hour of the order's creation. -/
theorem tornbot_C3_counterexample :
    (xanEvent.timestamp - order23h.timestamp).natAbs = 82800 ∧
    containsSub xanaxTok (lowerStr xanEventText) = true ∧
    containsSub (messageCode order23h.coverage_type)
      (lowerStr xanEventText) = true ∧
    transferPhraseB (lowerStr xanEventText) = true ∧
    paymentAmountFound order23h xanEventText (lowerStr xanEventText) = true ∧
    nameMatchFound order23h (lowerStr xanEventText) = true ∧
    ¬(xanEvent.timestamp < 1082800 - 86400) ∧
    perform_order_check st23h (some [xanEvent]) 1082800 =
      Except.ok (st23h, 1, 0) := by
  decide

/-- C3 amended: an event timestamped 25 hours before a pending order's
creation never matches it, and an event 23 hours away never matches it
either: the Matching Engine requires the event within one hour of the
order's creation, so any feed whose events are all more than an hour away
leaves the order unmatched. -/
theorem tornbot_C3_amended :
    (∀ (o : OrderData) (text : Chars) (ts : Int),
      ts = o.timestamp - 90000 → matchesOrder o text ts = false) ∧
    (∀ (o : OrderData) (text : Chars) (ts : Int),
      (ts - o.timestamp).natAbs = 82800 → matchesOrder o text ts = false) ∧
    (∀ (o : OrderData) (now : Int) (evs : List RawEvent),
      (∀ e ∈ evs, 3600 < (e.timestamp - o.timestamp).natAbs) →
      ∀ ts : Int, scanEvents o now evs ≠ Except.ok (some ts)) := by
  refine ⟨?_, ?_, ?_⟩
  · intro o text ts h
    apply matchesOrder_false_of_window
    omega
  · intro o text ts h
    apply matchesOrder_false_of_window
    omega
  · intro o now evs h ts
    exact scanEvents_not_match_of_window evs h ts

/-- Witness for C3 amended at the concrete 25-hour and 23-hour scenarios. -/
theorem tornbot_C3_witness :
    matchesOrder order23h xanEventText (order23h.timestamp - 90000) = false ∧
    matchesOrder order23h xanEventText xanEvent.timestamp = false ∧
    scanEvents order23h 1082800 [xanEvent] ≠ Except.ok (some 1000000) :=
  ⟨tornbot_C3_amended.1 order23h xanEventText _ rfl,
    tornbot_C3_amended.2.1 order23h xanEventText xanEvent.timestamp (by decide),
    tornbot_C3_amended.2.2 order23h 1082800 [xanEvent] (by decide) 1000000⟩

/-- C4 counterexample: the claim as stated is false.  An event whose
timestamp makes `datetime.fromtimestamp` raise aborts the remaining events
of the discovery pass — `[badEvent, extcEvent]` yields no orders though
`[extcEvent]` alone yields one — and in the matching pass the exception is
not caught at all: the pass returns an error carrying no counts. -/
theorem tornbot_C4_counterexample :
    detect_new_orders_from_torn roster1 pricedState
      (some [badEvent, extcEvent]) 1000000 = (pricedState, 0) ∧
    (detect_new_orders_from_torn roster1 pricedState
      (some [extcEvent]) 1000000).2 = 1 ∧
    perform_order_check st23h (some [badEvent]) 1082800 =
      Except.error st23h := by
  decide

/-- C4 amended: a per-event exception in the discovery pass is caught at the
pass boundary — the pass returns exactly the state and count accumulated
before the raising event, and the remaining events are never processed; a
per-event exception while scanning the first pending order in the matching
pass is not caught there: the pass aborts with an error (no aggregate
counts), leaving the state unchanged, and propagates to the caller. -/
theorem tornbot_C4_amended :
    (∀ (roster : List GuildMember) (st : BotState) (now : Int)
      (pre suf : List RawEvent) (b : RawEvent),
      b.isDict = true → b.tsOk = false →
      (detectLoop roster now pre st 0).2.2 = false →
      (detectLoop roster now pre st 0).1.processed_events.contains b.id = false →
      detect_new_orders_from_torn roster st (some (pre ++ b :: suf)) now =
        detect_new_orders_from_torn roster st (some pre) now) ∧
    (∀ (st : BotState) (evs : List RawEvent) (now : Int) (oid : OrderId)
      (o : OrderData) (rest : List (OrderId × OrderData)),
      st.pending_order = (oid, o) :: rest →
      scanEvents o now evs = Except.error () →
      perform_order_check st (some evs) now = Except.error st) := by
  constructor
  · intro roster st now pre suf b hb1 hb2 h3 h4
    have hloop := detectLoop_append_abort suf hb1 hb2 pre st 0 h3 h4
    cases pre with
    | nil =>
      have hstep := @detect_step_error_of_bad roster now st b hb1 hb2 h4
      have hbs : detectLoop roster now (b :: suf) st 0 = (st, 0, true) := by
        simp only [detectLoop, hstep]
      simp only [List.nil_append] at hloop ⊢
      simp [detect_new_orders_from_torn, hbs]
    | cons e pre' =>
      simp only [List.cons_append] at hloop
      simp [detect_new_orders_from_torn, hloop]
  · intro st evs now oid o rest hp hscan
    exact perform_error_of_first_scan hp hscan

/-- Witness for C4 amended: the bad event at the head of the feed. -/
theorem tornbot_C4_witness :
    detect_new_orders_from_torn roster1 pricedState
      (some ([] ++ badEvent :: [extcEvent])) 1000000 =
      detect_new_orders_from_torn roster1 pricedState (some []) 1000000 ∧
    perform_order_check st23h (some [badEvent]) 1082800 =
      Except.error st23h :=
  ⟨tornbot_C4_amended.1 roster1 pricedState 1000000 [] [extcEvent] badEvent
      rfl rfl rfl rfl,
    tornbot_C4_amended.2 st23h [badEvent] 1082800 (1, 1082800, false) order23h
      [] rfl (by decide)⟩

/-- C5: the Matching Engine is idempotent against an unchanged feed: if a
pass on state `st` completes with result state `st1`, a second pass on `st1`
with the same feed and the same reference time completes and leaves the
pending and active sets of `st1` unchanged. -/
theorem tornbot_C5_matching_idempotent (st : BotState)
    (events : Option (List RawEvent)) (now : Int) (st1 : BotState) (a b : Nat)
    (h : perform_order_check st events now = Except.ok (st1, a, b)) :
    ∃ a' b', perform_order_check st1 events now = Except.ok (st1, a', b') := by
  cases events with
  | none =>
    refine ⟨0, 0, ?_⟩
    simp only [perform_order_check]
    split
    · rfl
    · rfl
  | some evs =>
    simp only [perform_order_check] at h
    split at h
    · rename_i hemp
      obtain rfl : st = st1 := by injection h with h1; exact congrArg Prod.fst h1
      refine ⟨0, 0, ?_⟩
      simp [perform_order_check, hemp]
    · split at h
      · exact Except.noConfusion h
      · rename_i hemp hab
        have hab' : (checkOrdersGo evs now st.pending_order).2.2.2 = false := by
          revert hab
          cases (checkOrdersGo evs now st.pending_order).2.2.2 <;> simp
        have hst1 : st1 =
            { st with
              pending_order := (checkOrdersGo evs now st.pending_order).2.1.foldl
                (fun pd pr => dictErase pd pr.1)
                (checkOrdersGo evs now st.pending_order).1
              active_orders := (checkOrdersGo evs now st.pending_order).2.1.foldl
                (fun a pr => dictInsert a pr.1 (activateVerified pr.2 now))
                st.active_orders } := by
          injection h with h1
          exact (congrArg Prod.fst h1).symm
        subst hst1
        have hall : ∀ x ∈ ({ st with
              pending_order := (checkOrdersGo evs now st.pending_order).2.1.foldl
                (fun pd pr => dictErase pd pr.1)
                (checkOrdersGo evs now st.pending_order).1
              active_orders := (checkOrdersGo evs now st.pending_order).2.1.foldl
                (fun a pr => dictInsert a pr.1 (activateVerified pr.2 now))
                st.active_orders } : BotState).pending_order,
            scanEvents x.2 now evs = Except.ok none := by
          intro x hx
          obtain ⟨hxp, hkeys⟩ := mem_foldl_dictErase hx
          rcases checkOrdersGo_none_of_mem evs now st.pending_order hab' x hxp
            with hnone | hxv
          · exact hnone
          · exact absurd rfl (hkeys x hxv)
        obtain ⟨a', hp⟩ := perform_all_none hall
        exact ⟨a', 0, hp⟩

/-- Witness for C5: a pass that activates the single pending order, then a
second pass on the resulting state. -/
theorem tornbot_C5_witness :
    ∃ a' b', perform_order_check stC5' (some [xanEvent]) 1000000 =
      Except.ok (stC5', a', b') :=
  tornbot_C5_matching_idempotent stC5 (some [xanEvent]) 1000000 stC5' 0 1
    (by decide)

/-- C7: when the Matching Engine matches the pending order to a qualifying
event (at the matched event's timestamp `ts`), it records
`payment_received_at = ts`; if `ts` precedes the recorded creation time the
creation timestamp is rewritten to `ts`, otherwise it is left unchanged; and
the promoted order stored in the active set is exactly the mutated order
activated at the pass's reference time. -/
theorem tornbot_C7_payment_timestamps (st : BotState) (evs : List RawEvent)
    (now : Int) (oid : OrderId) (o : OrderData) (ts : Int)
    (h1 : st.pending_order = [(oid, o)])
    (h2 : scanEvents o now evs = Except.ok (some ts)) :
    (∃ e ∈ evs, e.timestamp = ts ∧ matchesOrder o (eventText e) ts = true) ∧
    (updateOnMatch o ts).payment_received_at = some ts ∧
    (updateOnMatch o ts).timestamp =
      (if ts < o.timestamp then ts else o.timestamp) ∧
    perform_order_check st (some evs) now =
      Except.ok ({ st with
        pending_order := []
        active_orders := dictInsert st.active_orders oid
          (activateVerified (updateOnMatch o ts) now) }, 0, 1) := by
  refine ⟨scanEvents_mem evs ts h2, rfl, rfl, ?_⟩
  have hemp : st.pending_order.isEmpty = false := by rw [h1]; rfl
  have hGo : checkOrdersGo evs now st.pending_order =
      ([(oid, updateOnMatch o ts)], [(oid, updateOnMatch o ts)], [], false) := by
    rw [h1]
    simp only [checkOrdersGo, h2]
  have hER : dictErase [(oid, updateOnMatch o ts)] oid =
      ([] : List (OrderId × OrderData)) := by
    simp [dictErase]
  simp only [perform_order_check, hemp, hGo]
  simp [hER]

/-- Witness for C7 at the concrete single-order, single-event scenario. -/
theorem tornbot_C7_witness :
    (∃ e ∈ [xanEvent], e.timestamp = 1000000 ∧
      matchesOrder orderC5 (eventText e) 1000000 = true) ∧
    (updateOnMatch orderC5 1000000).payment_received_at = some 1000000 ∧
    (updateOnMatch orderC5 1000000).timestamp =
      (if (1000000 : Int) < orderC5.timestamp then 1000000
        else orderC5.timestamp) ∧
    perform_order_check stC5 (some [xanEvent]) 1000000 =
      Except.ok ({ stC5 with
        pending_order := []
        active_orders := dictInsert stC5.active_orders (1, 1000000, false)
          (activateVerified (updateOnMatch orderC5 1000000) 1000000) }, 0, 1) :=
  tornbot_C7_payment_timestamps stC5 [xanEvent] 1000000 (1, 1000000, false)
    orderC5 1000000 rfl (by decide)

/-- C8 counterexample: on an effective tick the pass sequence is not
Matching-then-Discovery. -/
theorem tornbot_C8_counterexample :
    auto_check_orders true 600 5 true true ≠
      [ReconPass.matching, ReconPass.discovery] := by
  decide

/-- C8 amended: on every effective scheduler tick (auto check enabled, the
configured interval elapsed, a guild available, an API key configured) the
tick invokes New-Order Discovery first and the Matching Engine second. -/
theorem tornbot_C8_amended (enabled : Bool) (elapsed interval : Int)
    (hasGuild hasKey : Bool) (h1 : enabled = true)
    (h2 : interval * 60 ≤ elapsed) (h3 : hasGuild = true) (h4 : hasKey = true) :
    auto_check_orders enabled elapsed interval hasGuild hasKey =
      [ReconPass.discovery, ReconPass.matching] := by
  subst h1
  subst h3
  subst h4
  simp [auto_check_orders]
  omega

/-- Witness for C8 amended at a concrete effective tick. -/
theorem tornbot_C8_witness :
    auto_check_orders true 600 5 true true =
      [ReconPass.discovery, ReconPass.matching] :=
  tornbot_C8_amended true 600 5 true true rfl (by decide) rfl rfl

/-- C9: a purchase attempt by a member who already holds any pending order
or any active order (of either coverage kind) is refused by both purchase
commands and the whole state — pending set, active set, and pricing tables —
is returned unchanged. -/
theorem tornbot_C9_purchase_guard (st : BotState) (uid : Nat) (un dn : Chars)
    (h j : Nat) (t : Int)
    (hex : hasUser st.pending_order uid = true ∨
      hasUser st.active_orders uid = true) :
    xan_insurance st uid un dn h t = st ∧
    extc_insurance st uid un dn j t = st := by
  constructor
  · cases hpe : st.pricing_xan.isEmpty with
    | true => simp [xan_insurance, hpe]
    | false =>
      rcases hex with h1 | h1
      · simp [xan_insurance, hpe, h1]
      · cases hpend : hasUser st.pending_order uid <;>
          simp [xan_insurance, hpe, hpend, h1]
  · cases hpe : st.pricing_extc.isEmpty with
    | true => simp [extc_insurance, hpe]
    | false =>
      rcases hex with h1 | h1
      · simp [extc_insurance, hpe, h1]
      · cases hpend : hasUser st.pending_order uid <;>
          simp [extc_insurance, hpe, hpend, h1]

/-- Witness for C9: member 1 already holds the pending order of `stC5`. -/
theorem tornbot_C9_witness :
    xan_insurance stC5 1 aliceUser aliceName 12 3000000 = stC5 ∧
    extc_insurance stC5 1 aliceUser aliceName 1 3000000 = stC5 :=
  tornbot_C9_purchase_guard stC5 1 aliceUser aliceName 12 1 3000000
    (Or.inl (by decide))

/-- C10: manual activation of a member's single pending order activates at
the recorded `payment_received_at` when present (else at the current time),
sets the expiry to activation plus the coverage length (the order's hours
for XAN, a fixed 2 hours for EXTC), marks the order active, removes it from
the pending set and inserts it into the active set. -/
theorem tornbot_C10_manual_activation (st : BotState) (uid : Nat) (now : Int)
    (oid : OrderId) (o : OrderData)
    (h : st.pending_order.filter (fun p => p.2.user_id == uid) = [(oid, o)]) :
    activate_order st uid now =
      { st with
        active_orders := dictInsert st.active_orders oid
          { o with
            activated_at := some (match o.payment_received_at with
              | some t => t
              | none => now)
            expires_at := some ((match o.payment_received_at with
              | some t => t
              | none => now) +
              ((match o.coverage_type with
                | CoverageKind.XAN => o.hours
                | CoverageKind.EXTC => 2) : Nat) * 3600)
            status := some OrderStatus.active }
        pending_order := dictErase st.pending_order oid } := by
  simp only [activate_order, h]

/-- Witness for C10: activating the single pending order of `stC5` (which
has no recorded payment time) at time 5000. -/
theorem tornbot_C10_witness :
    activate_order stC5 1 5000 =
      { stC5 with
        active_orders := dictInsert stC5.active_orders (1, 1000000, false)
          { orderC5 with
            activated_at := some 5000
            expires_at := some 48200
            status := some OrderStatus.active }
        pending_order := dictErase stC5.pending_order (1, 1000000, false) } := by
  rw [tornbot_C10_manual_activation stC5 1 5000 (1, 1000000, false) orderC5
    (by decide)]
  decide
